import Mathlib

/-!
Verification of the Cosmologist document-join engine.

This file shallowly embeds the core of the repository — the column
transforms of `src/lib/transforms.ts` and the recursive document-join
engine `buildJoinedDocument` of `src/lib/join.ts` — and proves the
specification's claims about them.

Modelling conventions:
* JavaScript values that can live in a table cell are the JSON-like
  inductive `Val`; a JavaScript object is an insertion-ordered
  association list `Obj` with unique keys, maintained by `objSet`.
* JavaScript `Map`/`Set` (always used here with string keys) are
  insertion-ordered association lists / lists with first-kept dedup.
* The mutable `visited` set of `buildNested` and the in-place updates
  of the projected row are made explicit: the recursion threads a
  `(visited, projected)` state.
* Recursion in `buildNested` terminates in the source via the visited
  set; the embedding uses an explicit fuel counter and returns `none`
  ("out of fuel") only when the fuel is exhausted, which never happens
  for sufficiently large fuel.
* `JSON.stringify`-keyed deduplication is keyed on the value itself:
  `JSON.stringify` is injective on the value domain modelled here
  (no `undefined`, `NaN` or function values), so string-equality of
  the serializations coincides with structural equality of the values.
-/

/-- A JSON-like JavaScript value, as stored in a table cell or built by
the join engine. -/
inductive Val where
  | str (s : String)
  | num (n : Int)
  | bool (b : Bool)
  | null
  | arr (elems : List Val)
  | obj (fields : List (String × Val))

/-- A JavaScript object: insertion-ordered fields. -/
abbrev Obj := List (String × Val)

mutual

/-- Structural equality on `Val` (the equality induced by comparing
`JSON.stringify` serializations in the source). -/
def Val.beq : Val → Val → Bool
  | .str a, .str b => a == b
  | .num a, .num b => a == b
  | .bool a, .bool b => a == b
  | .null, .null => true
  | .arr xs, .arr ys => Val.beqList xs ys
  | .obj xs, .obj ys => Val.beqFields xs ys
  | _, _ => false

/-- Structural equality on lists of values. -/
def Val.beqList : List Val → List Val → Bool
  | [], [] => true
  | x :: xs, y :: ys => Val.beq x y && Val.beqList xs ys
  | _, _ => false

/-- Structural equality on object field lists. -/
def Val.beqFields : List (String × Val) → List (String × Val) → Bool
  | [], [] => true
  | (k1, v1) :: xs, (k2, v2) :: ys => k1 == k2 && Val.beq v1 v2 && Val.beqFields xs ys
  | _, _ => false

end

/-- Property read `o[k]`: `none` models JavaScript `undefined`. -/
def objGet (o : Obj) (k : String) : Option Val :=
  match o.find? (fun kv => kv.1 == k) with
  | some kv => some kv.2
  | none => none

/-- Property write `o[k] = v`: an existing key keeps its position, a
new key is appended — JavaScript object-key insertion order. -/
def objSet (o : Obj) (k : String) (v : Val) : Obj :=
  match o with
  | [] => [(k, v)]
  | (k', v') :: rest =>
    if k' == k then (k', v) :: rest else (k', v') :: objSet rest k v

/-- Property delete `delete o[k]`. -/
def objDelete (o : Obj) (k : String) : Obj :=
  o.filter (fun kv => kv.1 != k)

/-- The JavaScript `k in o` test. -/
def objHas (o : Obj) (k : String) : Bool :=
  o.any (fun kv => kv.1 == k)

/-- JavaScript truthiness of a value: `0`, `""`, `false` and `null`
are falsy, everything else (objects and arrays included) is truthy. -/
def jsTruthy : Val → Bool
  | .str s => s != ""
  | .num n => n != 0
  | .bool b => b
  | .null => false
  | .arr _ => true
  | .obj _ => true

/-- Truthiness of a property read, where an absent key (`undefined`)
is falsy. -/
def jsTruthyOpt : Option Val → Bool
  | none => false
  | some v => jsTruthy v

/-- JavaScript strict equality `===` on two cell values.  Primitives
compare by value; for two distinct arrays or objects `===` is
reference equality and therefore false — the pure data model cannot
express aliasing, so distinct array/object values never compare
equal, which matches rows produced by parsing (which never aliases). -/
def jsStrictEq : Val → Val → Bool
  | .str a, .str b => a == b
  | .num a, .num b => a == b
  | .bool a, .bool b => a == b
  | .null, .null => true
  | _, _ => false

/-- Strict equality on property reads: `undefined === undefined` is
true, `undefined === v` is false for any value `v`. -/
def jsStrictEqOpt : Option Val → Option Val → Bool
  | none, none => true
  | some a, some b => jsStrictEq a b
  | _, _ => false

/-- First-occurrence-kept deduplication of a value list — the
`uniqBy(arr, JSON.stringify)` helper of `join.ts` (keyed on the value
itself, see the header note on `JSON.stringify` injectivity). -/
def uniqVals (l : List Val) : List Val :=
  (l.foldl
    (fun (acc : List Val × List Val) v =>
      if (acc.2.any (fun w => Val.beq w v)) then acc
      else (acc.1 ++ [v], acc.2 ++ [v]))
    ([], [])).1

/-- Does the second character list start the first one? -/
def charsStartWith : List Char → List Char → Bool
  | _, [] => true
  | [], _ :: _ => false
  | c :: cs, p :: ps => c == p && charsStartWith cs ps

/-- `String.prototype.startsWith`. -/
def strStartsWith (s pat : String) : Bool :=
  charsStartWith s.toList pat.toList

/-- JavaScript-style whitespace for `trim` (the common ASCII cases). -/
def isJsWhitespace (c : Char) : Bool :=
  c == ' ' || c == '\t' || c == '\n' || c == '\r'

/-- `String.prototype.trim`. -/
def strTrim (s : String) : String :=
  String.mk (((s.toList.dropWhile isJsWhitespace).reverse.dropWhile isJsWhitespace).reverse)

/-- Leftmost non-overlapping split of a character list on a non-empty
separator; `fuel` bounds the scan (always called with enough). -/
def splitCharsAux (sep : List Char) : Nat → List Char → List Char → List (List Char)
  | 0, cs, cur => [cur.reverse ++ cs]
  | _ + 1, [], cur => [cur.reverse]
  | fuel + 1, c :: cs, cur =>
    if charsStartWith (c :: cs) sep then
      cur.reverse :: splitCharsAux sep fuel ((c :: cs).drop sep.length) []
    else
      splitCharsAux sep fuel cs (c :: cur)

/-- JavaScript `String.prototype.split`: an empty separator splits
into single characters, otherwise leftmost non-overlapping
splitting. -/
def jsSplit (s sep : String) : List String :=
  if sep = "" then s.toList.map (fun c => String.mk [c])
  else (splitCharsAux sep.toList (s.length + 1) s.toList []).map String.mk

/-- Decimal digits to a natural number. -/
def digitsToNat (cs : List Char) : Nat :=
  cs.foldl (fun n c => n * 10 + (c.toNat - '0'.toNat)) 0

/-- Modelled fragment of JavaScript `Number(string)`: an optional
minus sign followed by decimal digits.  (Full `Number()` also accepts
floats, exponents, hex and surrounding whitespace; the pivot indices
this is applied to are column-name suffixes such as `"1"`, `"10"`.)
`none` models `NaN`. -/
def jsNumber (s : String) : Option Int :=
  if s ≠ "" && s.toList.all Char.isDigit then
    some (Int.ofNat (digitsToNat s.toList))
  else if strStartsWith s "-" && (s.drop 1) ≠ "" && (s.drop 1).toList.all Char.isDigit then
    some (-(Int.ofNat (digitsToNat (s.drop 1).toList)))
  else none

/-- Ordinal string comparison as an integer, modelling
`String.prototype.localeCompare` (the default locale agrees with
ordinal comparison on the same-case ASCII alphanumerics used as pivot
indices). -/
def lexCmp (a b : String) : Int :=
  match compare a b with
  | .lt => -1
  | .eq => 0
  | .gt => 1

/-- The sort comparator used for pivot indices in both `applyPivots`
(`transforms.ts`) and the pivot-aware join path (`join.ts`):
numeric difference when both strings parse as numbers, otherwise
`localeCompare`. -/
def jsIdxCmp (a b : String) : Int :=
  match jsNumber a, jsNumber b with
  | some na, some nb => na - nb
  | _, _ => lexCmp a b

/-- Insert into a sorted list, keeping `x` before the first element it
is `≤` to (ties keep original order, as JavaScript's stable sort
requires). -/
def sortInsert (le : String → String → Bool) (x : String) : List String → List String
  | [] => [x]
  | y :: ys => if le x y then x :: y :: ys else y :: sortInsert le x ys

/-- Stable insertion sort.  For a comparator that is a total preorder
on the input (which holds whenever the claims below rely on a sort
result) every stable comparison sort — JavaScript engines' included —
produces this same unique output. -/
def stableSort (le : String → String → Bool) : List String → List String
  | [] => []
  | x :: xs => sortInsert le x (stableSort le xs)

/-- `[...set].sort(cmp)` over pivot indices. -/
def jsSortIndices (l : List String) : List String :=
  stableSort (fun a b => jsIdxCmp a b ≤ 0) l

/-- Insertion-ordered first-kept deduplication, modelling iteration
over a JavaScript `Set` built by repeated `add`. -/
def dedupFirst (l : List String) : List String :=
  (l.foldl
    (fun (acc : List String × List String) s =>
      if acc.2.contains s then acc else (acc.1 ++ [s], acc.2 ++ [s]))
    ([], [])).1

-- ── Data model (src/lib/types.ts, fields the engine reads) ─────────

/-- A loaded table (`TableData` in `types.ts`; `fileName` and the
source-text fields are never read by the transform/join code and are
omitted). -/
structure TableData where
  id : String
  name : String
  columns : List String
  rows : List Obj

/-- Relationship cardinality. -/
inductive Cardinality where
  | oneToMany
  | oneToOne
deriving DecidableEq

/-- A normalized relationship (`RelationshipEdge` plus the per-edge
overrides that `toRelationshipEdges` attaches in `join.ts`). -/
structure RelationshipEdge where
  sourceTableId : String
  targetTableId : String
  sourceColumn : String
  targetColumn : String
  type : Option Cardinality := none
  includedColumns : Option (List String) := none
  maxDepth : Option Nat := none
  propertyName : Option String := none

/-- A column-split rule (`ColumnSplit` in `transforms.ts`). -/
structure ColumnSplit where
  tableId : String
  column : String
  delimiter : String

/-- One pivot group (`PivotGroup` in `transforms.ts`). -/
structure PivotGroup where
  pattern : String
  propertyName : String

/-- A table pivot (`TablePivot` in `transforms.ts`). -/
structure TablePivot where
  tableId : String
  arrayName : String
  groups : List PivotGroup

-- ── Column transforms (src/lib/transforms.ts) ──────────────────────

/-- `matchGroupColumns`: map from index (the non-empty suffix after
stripping `pattern`) to column name, in column order; `Map.set` on a
duplicate suffix keeps the first position and the last value. -/
def matchGroupColumns (allColumns : List String) (pattern : String) :
    List (String × String) :=
  allColumns.foldl
    (fun acc col =>
      if strStartsWith col pattern then
        let suffix := col.drop pattern.length
        if suffix.length > 0 then
          if acc.any (fun kv => kv.1 == suffix) then
            acc.map (fun kv => if kv.1 == suffix then (kv.1, col) else kv)
          else acc ++ [(suffix, col)]
        else acc
      else acc)
    []

/-- `Map.get` on a suffix map. -/
def mapGet (m : List (String × String)) (k : String) : Option String :=
  match m.find? (fun kv => kv.1 == k) with
  | some kv => some kv.2
  | none => none

/-- One split applied to the working row (`applySplits` loop body). -/
def applySplitStep (tableId : String) (out : Obj) (split : ColumnSplit) : Obj :=
  if split.tableId == tableId then
    match objGet out split.column with
    | some (.str s) =>
      objSet out split.column
        (.arr ((jsSplit s split.delimiter).map (fun p => .str (strTrim p))))
    | _ => out
  else out

/-- `applySplits`: for every split matching `tableId`, a string value
of the split column is replaced by the trimmed pieces; everything else
passes through. -/
def applySplits (row : Obj) (splits : List ColumnSplit) (tableId : String) : Obj :=
  splits.foldl (applySplitStep tableId) row

/-- The union of the indices of all groups of one pivot, in insertion
order, then sorted with the index comparator — computed identically at
`transforms.ts` (`applyPivots` steps 2–3) and `join.ts`
(`buildNested`, pivot-aware branch). -/
def pivotSortedIndices (allColumns : List String) (pivot : TablePivot) : List String :=
  let groupCols := pivot.groups.map (fun g => matchGroupColumns allColumns g.pattern)
  let allIndices := dedupFirst (groupCols.flatMap (fun cols => cols.map (fun kv => kv.1)))
  jsSortIndices allIndices

/-- One pivot applied to a row (`applyPivots` loop body). -/
def applyOnePivot (out : Obj) (pivot : TablePivot) (allColumns : List String) : Obj :=
  let groupMaps := pivot.groups.map (fun g => (g, matchGroupColumns allColumns g.pattern))
  let sortedIndices := pivotSortedIndices allColumns pivot
  let arr := sortedIndices.foldl
    (fun acc idx =>
      let obj := groupMaps.foldl
        (fun (o : Obj) gm =>
          match mapGet gm.2 idx with
          | some colName => if objHas out colName then objSet o gm.1.propertyName ((objGet out colName).getD .null) else o
          | none => o)
        []
      if groupMaps.any (fun gm => match mapGet gm.2 idx with
          | some colName => objHas out colName
          | none => false)
      then acc ++ [Val.obj obj] else acc)
    []
  let cleared := groupMaps.foldl
    (fun o gm => gm.2.foldl (fun o' kv => objDelete o' kv.2) o)
    out
  objSet cleared pivot.arrayName (.arr arr)

/-- `applyPivots`: each pivot matching `tableId` applied in order. -/
def applyPivots (row : Obj) (pivots : List TablePivot) (tableId : String)
    (allColumns : List String) : Obj :=
  pivots.foldl
    (fun out pivot =>
      if pivot.tableId == tableId then applyOnePivot out pivot allColumns else out)
    row

/-- `applyTransforms`: splits then pivots. -/
def applyTransforms (row : Obj) (tableId : String) (allColumns : List String)
    (splits : List ColumnSplit) (pivots : List TablePivot) : Obj :=
  applyPivots (applySplits row splits tableId) pivots tableId allColumns

example :
    applySplits [("c", .str "red, green, blue")] [⟨"t", "c", ","⟩] "t"
      = [("c", .arr [.str "red", .str "green", .str "blue"])] := rfl

example :
    applyPivots
      [("Id", .num 1), ("Item1", .num 10), ("Fact1", .str "Yes"),
       ("Item2", .num 12), ("Fact2", .str "No")]
      [⟨"t", "Items", [⟨"Item", "Item"⟩, ⟨"Fact", "Fact"⟩]⟩] "t"
      ["Id", "Item1", "Fact1", "Item2", "Fact2"]
      = [("Id", .num 1),
         ("Items", .arr
           [.obj [("Item", .num 10), ("Fact", .str "Yes")],
            .obj [("Item", .num 12), ("Fact", .str "No")]])] := rfl

-- ── Document join engine (src/lib/join.ts) ─────────────────────────

/-- `tableMap.get`: the source builds a `Map` from the table list, so
on duplicate ids the last entry wins. -/
def lookupTable (tables : List TableData) (id : String) : Option TableData :=
  tables.reverse.find? (fun t => t.id == id)

/-- The inputs of one `buildJoinedDocument` call (tables,
relationships, and the `options` record with empty lists standing for
absent options). -/
structure BuildEnv where
  tables : List TableData
  relationships : List RelationshipEdge
  columnsFilter : List (String × List String)
  columnSplits : List ColumnSplit
  tablePivots : List TablePivot

/-- `projectRow`: apply the per-table column filter (keep all columns
when the filter is absent or empty), then the transforms with the
table's declared column list. -/
def projectRow (env : BuildEnv) (tableId : String) (row : Obj) : Obj :=
  let cols := match env.columnsFilter.find? (fun kv => kv.1 == tableId) with
    | some kv => some kv.2
    | none => none
  let out := match cols with
    | none => row
    | some l =>
      if l.isEmpty then row
      else l.foldl
        (fun acc key =>
          if objHas row key then objSet acc key ((objGet row key).getD .null) else acc)
        []
  let allColumns := match lookupTable env.tables tableId with
    | some t => t.columns
    | none => row.map (fun kv => kv.1)
  applyTransforms out tableId allColumns env.columnSplits env.tablePivots

/-- The inner search of `findPivotInfo`: the first group of the pivot
whose matched columns contain `col`, returning that group's
suffix-to-column map. -/
def groupMatchContaining (cols : List String) (groups : List PivotGroup)
    (col : String) : Option (List (String × String)) :=
  groups.findSome? (fun g =>
    let matched := matchGroupColumns cols g.pattern
    if matched.any (fun kv => kv.2 == col) then some matched else none)

/-- `findPivotInfo`: the first pivot on `tblId` one of whose groups
consumes `col`, with the sibling-column map of that group. -/
def findPivotInfo (env : BuildEnv) (tblId : String) (col : String) :
    Option (TablePivot × List (String × String)) :=
  match lookupTable env.tables tblId with
  | none => none
  | some tbl =>
    env.tablePivots.findSome? (fun pivot =>
      if pivot.tableId == tblId then
        match groupMatchContaining tbl.columns pivot.groups col with
        | some matched => some (pivot, matched)
        | none => none
      else none)

/-- The `childTableNames` set of `buildNested`: display names of the
tables related to `childTableId` by some relationship. -/
def childTableNames (env : BuildEnv) (childTableId : String) : List String :=
  (env.relationships.filter
      (fun r => r.sourceTableId == childTableId || r.targetTableId == childTableId)).filterMap
    (fun r =>
      let tid := if r.sourceTableId == childTableId then r.targetTableId else r.sourceTableId
      (lookupTable env.tables tid).map (fun t => t.name))

/-- `filterNestedCols`: with a non-empty `includedColumns` list, keep
only the keys that are declared included or are a related table's
display name. -/
def filterNestedCols (includedCols : Option (List String)) (childNames : List String)
    (o : Obj) : Obj :=
  match includedCols with
  | none => o
  | some l =>
    if l.isEmpty then o
    else o.filter (fun kv => l.contains kv.1 || childNames.contains kv.1)

/-- The matching child rows (with their indices, which stand for the
JavaScript row-object references): `childRow[remoteCol] === localValue`. -/
def jsMatches (childRows : List Obj) (remoteCol : String) (localValue : Option Val) :
    List (Nat × Obj) :=
  childRows.enum.filter (fun ir => jsStrictEqOpt (objGet ir.2 remoteCol) localValue)

/-- The visited set of depth keys `tableId:rowIndex:depth`. -/
abbrev Visited := List String

/-- The recursive call made for a matched child row: child table id,
child row, child row index, parent table id, depth, visited set in —
updated visited set and built object out (`none` = out of fuel). -/
abbrev RecurseFn := String → Obj → Nat → String → Nat → Visited → Option (Visited × Obj)

/-- `uniqBy(matches.map(m => filterNestedCols(buildNested(...))), JSON.stringify)`:
build each match in order (threading the visited set), filter each
with the edge's column filter, deduplicate. -/
def buildChildList (recurse : RecurseFn) (childTableId parentTid : String) (dep : Nat)
    (includedCols : Option (List String)) (childNames : List String)
    (matchList : List (Nat × Obj)) (visited : Visited) : Option (Visited × List Val) :=
  match matchList.foldlM
      (fun (acc : Visited × List Val) im =>
        match recurse childTableId im.2 im.1 parentTid dep acc.1 with
        | some (vis', node) =>
          some (vis', acc.2 ++ [Val.obj (filterNestedCols includedCols childNames node)])
        | none => none)
      (visited, []) with
  | some (vis, nodes) => some (vis, uniqVals nodes)
  | none => none

/-- The attached value for a non-empty deduplicated child list:
`nested[0]` for one-to-one, the whole array otherwise. -/
def attachVal (card : Cardinality) (nested : List Val) : Val :=
  match card with
  | .oneToOne => nested.headD .null
  | .oneToMany => .arr nested

/-- The per-element loop of the pivot-aware join branch of
`buildNested`: walk the sorted indices and the pivot array in step
(`i < sortedIndices.length && i < pivotArray.length`), look up the
original column value of the element's index in the raw row, and
attach that element's own matches inside the element.  An element that
is not an object is left unchanged (property assignment on a
primitive is a silent no-op in non-strict JavaScript). -/
def pivotJoinLoop (recurse : RecurseFn) (childTableId parentTid : String) (dep : Nat)
    (includedCols : Option (List String)) (childNames : List String)
    (childRows : List Obj) (remoteCol : String)
    (siblingCols : List (String × String)) (row : Obj)
    (propName : String) (card : Cardinality) :
    List String → Nat → Visited → List Val → Option (Visited × List Val)
  | [], _, vis, pivotArray => some (vis, pivotArray)
  | idx :: rest, i, vis, pivotArray =>
    if i < pivotArray.length then
      match mapGet siblingCols idx with
      | none =>
        pivotJoinLoop recurse childTableId parentTid dep includedCols childNames
          childRows remoteCol siblingCols row propName card rest (i + 1) vis pivotArray
      | some colName =>
        if objHas row colName then
          let localValue := (objGet row colName).getD .null
          let matchList := jsMatches childRows remoteCol (some localValue)
          if matchList.isEmpty then
            pivotJoinLoop recurse childTableId parentTid dep includedCols childNames
              childRows remoteCol siblingCols row propName card rest (i + 1) vis pivotArray
          else
            match buildChildList recurse childTableId parentTid dep includedCols
                childNames matchList vis with
            | none => none
            | some (vis', nested) =>
              let newElem := match pivotArray.getD i .null with
                | .obj fields => Val.obj (objSet fields propName (attachVal card nested))
                | other => other
              pivotJoinLoop recurse childTableId parentTid dep includedCols childNames
                childRows remoteCol siblingCols row propName card rest (i + 1) vis'
                (pivotArray.set i newElem)
        else
          pivotJoinLoop recurse childTableId parentTid dep includedCols childNames
            childRows remoteCol siblingCols row propName card rest (i + 1) vis pivotArray
    else some (vis, pivotArray)

/-- The three `continue` guards at the head of the relationship loop
of `buildNested`: the recursion-depth policy for recursive edges
(block when `maxDepth` is undefined or `0`, or when `depth` has
reached it) and the parent-backref guard (the latter mirrored from
the source although its condition implies `isRecursive`). -/
def relSkip (tableId : String) (parentId : Option String) (depth : Nat)
    (rel : RelationshipEdge) : Bool :=
  let childTableId := if rel.sourceTableId == tableId then rel.targetTableId else rel.sourceTableId
  let isRecursive := parentId == some childTableId || childTableId == tableId
  (isRecursive && (rel.maxDepth == none || rel.maxDepth == some 0))
    || (isRecursive && decide (depth ≥ rel.maxDepth.getD 0))
    || (!isRecursive && parentId == some childTableId)

/-- The body of `buildNested`'s `for (const rel of rels)` loop: one
relationship processed against the `(visited, projected)` state. -/
def processRel (env : BuildEnv) (recurse : RecurseFn) (tableId : String) (row : Obj)
    (parentId : Option String) (depth : Nat)
    (state : Visited × Obj) (rel : RelationshipEdge) : Option (Visited × Obj) :=
  let visited := state.1
  let projected := state.2
  let childTableId := if rel.sourceTableId == tableId then rel.targetTableId else rel.sourceTableId
  let isRecursive := parentId == some childTableId || childTableId == tableId
  if relSkip tableId parentId depth rel then some state
  else
    match lookupTable env.tables childTableId with
    | none => some state
    | some childTable =>
      let isSource := rel.sourceTableId == tableId
      let localCol := if isSource then rel.sourceColumn else rel.targetColumn
      let remoteCol := if isSource then rel.targetColumn else rel.sourceColumn
      let childNames := childTableNames env childTableId
      let propName := rel.propertyName.getD childTable.name
      let card := rel.type.getD .oneToMany
      let dep := if isRecursive then depth + 1 else 0
      match findPivotInfo env tableId localCol with
      | some (pivot, siblingCols) =>
        match objGet projected pivot.arrayName with
        | some (.arr pivotArray) =>
          -- `tableMap.get(tableId)!` in the source: non-null because
          -- `findPivotInfo` just found the table
          let tblCols := ((lookupTable env.tables tableId).map (fun t => t.columns)).getD []
          let sortedIndices := pivotSortedIndices tblCols pivot
          match pivotJoinLoop recurse childTableId tableId dep rel.includedColumns
              childNames childTable.rows remoteCol siblingCols row propName card
              sortedIndices 0 visited pivotArray with
          | none => none
          | some (vis', newArr) =>
            some (vis', objSet projected pivot.arrayName (.arr newArr))
        | _ => some state
      | none =>
        let matchList := jsMatches childTable.rows remoteCol (objGet row localCol)
        if matchList.isEmpty then some state
        else
          match buildChildList recurse childTableId tableId dep rel.includedColumns
              childNames matchList visited with
          | none => none
          | some (vis', nested) =>
            let newProjected :=
              if card = .oneToOne then objSet projected propName (nested.headD .null)
              else match objGet projected propName with
                | some existing =>
                  if jsTruthy existing then
                    let arrExisting := match existing with
                      | .arr a => a
                      | v => [v]
                    objSet projected propName (.arr (uniqVals (arrExisting ++ nested)))
                  else objSet projected propName (.arr nested)
                | none => objSet projected propName (.arr nested)
            some (vis', newProjected)

/-- `buildNested`: visited check (keyed `tableId:rowIndex:depth` — the
source computes `rowIndex` by `indexOf` on the row reference), then
projection and transforms, then every relationship touching the table
in declaration order.  The row is accompanied by its index `rowIdx`
in its table, which stands for the JavaScript object reference.
`fuel` bounds the recursion depth; `none` means the fuel ran out. -/
def buildNested (env : BuildEnv) :
    Nat → String → Obj → Nat → Option String → Nat → Visited → Option (Visited × Obj)
  | 0, _, _, _, _, _, _ => none
  | fuel + 1, tableId, row, rowIdx, parentId, depth, visited =>
    let depthKey := tableId ++ ":" ++ toString rowIdx ++ ":" ++ toString depth
    if visited.contains depthKey then some (visited, projectRow env tableId row)
    else
      let visited' := depthKey :: visited
      let projected := projectRow env tableId row
      let rels := env.relationships.filter
        (fun r => r.sourceTableId == tableId || r.targetTableId == tableId)
      rels.foldlM
        (processRel env
          (fun ctid r i pid dep vis => buildNested env fuel ctid r i (some pid) dep vis)
          tableId row parentId depth)
        (visited', projected)

/-- The outcome of `buildJoinedDocument`: a thrown error with its
message, fuel exhaustion (an artifact of the embedding), or the
document. -/
inductive BuildOutcome where
  | errMsg (msg : String)
  | fuelOut
  | doc (d : Obj)

/-- `buildJoinedDocument`: resolve the lead table and row (throwing
the two `NotFoundError`s of the source otherwise), then build
`{ [leadTable.name]: buildNested(leadTableId, leadRow) }`. -/
def buildJoinedDocument (fuel : Nat) (leadTableId : String) (leadRowIndex : Nat)
    (tables : List TableData) (relationships : List RelationshipEdge)
    (columnsFilter : List (String × List String))
    (columnSplits : List ColumnSplit) (tablePivots : List TablePivot) : BuildOutcome :=
  match lookupTable tables leadTableId with
  | none => .errMsg ("Lead table not found: " ++ leadTableId)
  | some leadTable =>
    match leadTable.rows.get? leadRowIndex with
    | none => .errMsg ("Lead row not found index=" ++ toString leadRowIndex)
    | some leadRow =>
      let env : BuildEnv := ⟨tables, relationships, columnsFilter, columnSplits, tablePivots⟩
      match buildNested env fuel leadTableId leadRow leadRowIndex none 0 [] with
      | none => .fuelOut
      | some (_, nested) => .doc [(leadTable.name, Val.obj nested)]

example :
    buildJoinedDocument 10 "A" 0
      [⟨"A", "A", ["id", "b_id"], [[("id", .num 1), ("b_id", .num 10)], [("id", .num 2), ("b_id", .num 11)]]⟩,
       ⟨"B", "B", ["id", "val"], [[("id", .num 10), ("val", .str "x")], [("id", .num 11), ("val", .str "y")]]⟩]
      [{ sourceTableId := "A", targetTableId := "B", sourceColumn := "b_id", targetColumn := "id" }]
      [] [] []
      = .doc [("A", .obj [("id", .num 1), ("b_id", .num 10),
          ("B", .arr [.obj [("id", .num 10), ("val", .str "x")]])])] := rfl

-- ── Basic object lemmas ────────────────────────────────────────────

theorem objGet_nil (k : String) : objGet [] k = none := rfl

theorem objGet_cons (k1 k : String) (v1 : Val) (o : Obj) :
    objGet ((k1, v1) :: o) k = if k1 == k then some v1 else objGet o k := by
  unfold objGet
  cases h : k1 == k <;> simp [List.find?, h]

theorem objGet_objSet_self (o : Obj) (k : String) (v : Val) :
    objGet (objSet o k v) k = some v := by
  induction o with
  | nil => simp [objSet, objGet_cons]
  | cons kv rest ih =>
    obtain ⟨k', v'⟩ := kv
    by_cases h : k' = k
    · subst h; simp [objSet, objGet_cons]
    · simp [objSet, objGet_cons, h, ih]

theorem objGet_objSet_ne (o : Obj) (k k' : String) (v : Val) (h : k' ≠ k) :
    objGet (objSet o k' v) k = objGet o k := by
  induction o with
  | nil => simp [objSet, objGet_cons, objGet_nil, h]
  | cons kv rest ih =>
    obtain ⟨k1, v1⟩ := kv
    by_cases h1 : k1 = k'
    · subst h1; simp [objSet, objGet_cons, h]
    · simp [objSet, objGet_cons, h1, ih]

theorem objSet_self (o : Obj) (k : String) (v : Val) (h : objGet o k = some v) :
    objSet o k v = o := by
  induction o with
  | nil => simp [objGet_nil] at h
  | cons kv rest ih =>
    obtain ⟨k1, v1⟩ := kv
    rw [objGet_cons] at h
    by_cases h1 : k1 = k
    · subst h1
      simp at h
      simp [objSet, h]
    · simp [h1] at h
      simp [objSet, h1, ih h]

theorem objGet_filterKeys (p : String → Bool) (o : Obj) (k : String) :
    objGet (o.filter (fun kv => p kv.1)) k = if p k then objGet o k else none := by
  induction o with
  | nil => simp [objGet_nil]
  | cons kv rest ih =>
    obtain ⟨k1, v1⟩ := kv
    by_cases h1 : k1 = k
    · subst h1
      cases hp : p k1 <;> simp [List.filter, hp, objGet_cons, ih]
    · cases hp : p k1 <;> simp [List.filter, hp, objGet_cons, h1, ih]

-- ── C7: determinism ────────────────────────────────────────────────

/-- C7: for every fixed input (tables, relationships, transform rules,
lead selector), two calls to `buildJoinedDocument` yield structurally
identical output documents.  The embedding threads all state
(visited set, projected row) explicitly and every iteration order in
the source (array and row order, `Map`/`Set` insertion order, sorted
pivot indices) is deterministic, so the engine is a pure function of
its arguments and any two calls on equal inputs agree. -/
theorem C7_determinism (fuel : Nat) (lead : String) (idx : Nat)
    (tables tables' : List TableData) (rels rels' : List RelationshipEdge)
    (cf cf' : List (String × List String)) (cs cs' : List ColumnSplit)
    (tp tp' : List TablePivot)
    (ht : tables = tables') (hr : rels = rels') (hc : cf = cf')
    (hs : cs = cs') (hp : tp = tp') :
    buildJoinedDocument fuel lead idx tables rels cf cs tp
      = buildJoinedDocument fuel lead idx tables' rels' cf' cs' tp' := by
  rw [ht, hr, hc, hs, hp]

theorem C7_witness :
    buildJoinedDocument 10 "A" 0
      [⟨"A", "A", ["id"], [[("id", .num 1)]]⟩] [] [] [] []
      = buildJoinedDocument 10 "A" 0
      [⟨"A", "A", ["id"], [[("id", .num 1)]]⟩] [] [] [] [] :=
  C7_determinism 10 "A" 0 _ _ _ _ _ _ _ _ _ _ rfl rfl rfl rfl rfl

-- ── C4: failure semantics ──────────────────────────────────────────

/-- C4: `buildJoinedDocument` fails with an error naming the missing
table or out-of-range row if and only if `leadTableId` does not
resolve or `leadRowIndex` is out of range; a relationship referencing
an absent table is skipped silently (the relationship step leaves the
state unchanged) and never fails the call. -/
theorem C4_failure_semantics (fuel : Nat) (lead : String) (idx : Nat)
    (tables : List TableData) (rels : List RelationshipEdge)
    (cf : List (String × List String)) (cs : List ColumnSplit) (tp : List TablePivot) :
    (lookupTable tables lead = none →
      buildJoinedDocument fuel lead idx tables rels cf cs tp
        = .errMsg ("Lead table not found: " ++ lead))
    ∧ (∀ t, lookupTable tables lead = some t → t.rows[idx]? = none →
      buildJoinedDocument fuel lead idx tables rels cf cs tp
        = .errMsg ("Lead row not found index=" ++ toString idx))
    ∧ (∀ t r, lookupTable tables lead = some t → t.rows[idx]? = some r →
      ∀ m, buildJoinedDocument fuel lead idx tables rels cf cs tp ≠ .errMsg m)
    ∧ (∀ (env : BuildEnv) (recurse : RecurseFn) (tableId : String) (row : Obj)
        (parentId : Option String) (depth : Nat) (state : Visited × Obj)
        (rel : RelationshipEdge),
      lookupTable env.tables
        (if rel.sourceTableId == tableId then rel.targetTableId else rel.sourceTableId) = none →
      processRel env recurse tableId row parentId depth state rel = some state) := by
  refine ⟨?_, ?_, ?_, ?_⟩
  · intro h; simp [buildJoinedDocument, h]
  · intro t ht hr; simp [buildJoinedDocument, ht, hr]
  · intro t r ht hr m
    simp only [buildJoinedDocument, ht, List.get?_eq_getElem?, hr]
    split <;> simp
  · intro env recurse tableId row parentId depth state rel hchild
    by_cases hs : relSkip tableId parentId depth rel = true
    · simp [processRel, hs]
    · by_cases hsrc : (rel.sourceTableId == tableId) = true
      · simp only [hsrc, if_true] at hchild
        simp [processRel, hs, hsrc, hchild]
      · simp only [hsrc, if_false, Bool.false_eq_true] at hchild
        simp [processRel, hs, hsrc, hchild]

theorem C4_witness :
    buildJoinedDocument 3 "X" 0 [] [] [] [] [] = .errMsg ("Lead table not found: " ++ "X")
    ∧ buildJoinedDocument 3 "A" 5 [⟨"A", "A", ["id"], [[("id", .num 1)]]⟩] [] [] [] []
        = .errMsg ("Lead row not found index=" ++ toString 5)
    ∧ buildJoinedDocument 3 "A" 0 [⟨"A", "A", ["id"], [[("id", .num 1)]]⟩] [] [] [] []
        ≠ .errMsg "anything" :=
  ⟨(C4_failure_semantics 3 "X" 0 [] [] [] [] []).1 rfl,
   (C4_failure_semantics 3 "A" 5 [⟨"A", "A", ["id"], [[("id", .num 1)]]⟩] [] [] [] []).2.1
     ⟨"A", "A", ["id"], [[("id", .num 1)]]⟩ rfl rfl,
   (C4_failure_semantics 3 "A" 0 [⟨"A", "A", ["id"], [[("id", .num 1)]]⟩] [] [] [] []).2.2.1
     ⟨"A", "A", ["id"], [[("id", .num 1)]]⟩ [("id", .num 1)] rfl rfl "anything"⟩

-- ── C2: bounded self-recursion ─────────────────────────────────────

/-- The Boss/Worker/Intern chain table of the specification's
self-join scenario. -/
def chainEmployeeTable : TableData :=
  ⟨"emp", "Employee", ["id", "name", "manager_id"],
   [[("id", .num 1), ("name", .str "Boss"), ("manager_id", .null)],
    [("id", .num 2), ("name", .str "Worker"), ("manager_id", .num 1)],
    [("id", .num 3), ("name", .str "Intern"), ("manager_id", .num 2)]]⟩

/-- The Employee self-relationship: children are the rows whose
`manager_id` equals the parent's `id`. -/
def chainSelfRel (md : Option Nat) : RelationshipEdge :=
  { sourceTableId := "emp", targetTableId := "emp",
    sourceColumn := "id", targetColumn := "manager_id", maxDepth := md }

/-- C2: on a recursive edge (the child table is the current table or
the immediate parent), a relationship with `maxDepth` undefined or `0`
embeds nothing and raises no error; with `maxDepth = md` it embeds
nothing once `depth ≥ md`; and on the 3-level Boss←Worker←Intern chain
a self-relationship with `maxDepth 2` produces exactly two levels of
nesting (each recursive hop passes `depth + 1`, so Boss at depth 0
embeds Worker at depth 1, Worker embeds Intern at depth 2, and Intern
expands nothing). -/
theorem C2_recursion_depth_policy :
    (∀ (env : BuildEnv) (recurse : RecurseFn) (tableId : String) (row : Obj)
       (parentId : Option String) (depth : Nat) (state : Visited × Obj)
       (rel : RelationshipEdge),
      ((if rel.sourceTableId == tableId then rel.targetTableId else rel.sourceTableId) = tableId
        ∨ parentId = some (if rel.sourceTableId == tableId then rel.targetTableId else rel.sourceTableId)) →
      (rel.maxDepth = none ∨ rel.maxDepth = some 0) →
      processRel env recurse tableId row parentId depth state rel = some state)
    ∧ (∀ (env : BuildEnv) (recurse : RecurseFn) (tableId : String) (row : Obj)
       (parentId : Option String) (depth : Nat) (state : Visited × Obj)
       (rel : RelationshipEdge) (md : Nat),
      ((if rel.sourceTableId == tableId then rel.targetTableId else rel.sourceTableId) = tableId
        ∨ parentId = some (if rel.sourceTableId == tableId then rel.targetTableId else rel.sourceTableId)) →
      rel.maxDepth = some md → depth ≥ md →
      processRel env recurse tableId row parentId depth state rel = some state)
    ∧ buildJoinedDocument 10 "emp" 0 [chainEmployeeTable] [chainSelfRel none] [] [] []
        = .doc [("Employee", .obj
            [("id", .num 1), ("name", .str "Boss"), ("manager_id", .null)])]
    ∧ buildJoinedDocument 10 "emp" 0 [chainEmployeeTable] [chainSelfRel (some 2)] [] [] []
        = .doc [("Employee", .obj
            [("id", .num 1), ("name", .str "Boss"), ("manager_id", .null),
             ("Employee", .arr [.obj
               [("id", .num 2), ("name", .str "Worker"), ("manager_id", .num 1),
                ("Employee", .arr [.obj
                  [("id", .num 3), ("name", .str "Intern"), ("manager_id", .num 2)]])]])])] := by
  have skip_out : ∀ (env : BuildEnv) (recurse : RecurseFn) (tableId : String) (row : Obj)
      (parentId : Option String) (depth : Nat) (state : Visited × Obj)
      (rel : RelationshipEdge), relSkip tableId parentId depth rel = true →
      processRel env recurse tableId row parentId depth state rel = some state := by
    intro env recurse tableId row parentId depth state rel hs
    simp [processRel, hs]
  refine ⟨?_, ?_, rfl, rfl⟩
  · intro env recurse tableId row parentId depth state rel hrec hmd
    refine skip_out _ _ _ _ _ _ _ _ ?_
    cases hb : rel.sourceTableId == tableId with
    | true =>
      simp only [hb, if_true] at hrec
      rcases hrec with h1 | h1 <;> rcases hmd with h2 | h2 <;>
        simp [relSkip, hb, h1, h2]
    | false =>
      simp only [hb, Bool.false_eq_true, if_false] at hrec
      rcases hrec with h1 | h1
      · simp [h1] at hb
      · rcases hmd with h2 | h2 <;> simp [relSkip, hb, h1, h2]
  · intro env recurse tableId row parentId depth state rel md hrec hmd hdep
    have hd' : md ≤ depth := hdep
    refine skip_out _ _ _ _ _ _ _ _ ?_
    cases hb : rel.sourceTableId == tableId with
    | true =>
      simp only [hb, if_true] at hrec
      cases md with
      | zero => rcases hrec with h1 | h1 <;> simp [relSkip, hb, h1, hmd]
      | succ m => rcases hrec with h1 | h1 <;> simp [relSkip, hb, h1, hmd, hd']
    | false =>
      simp only [hb, Bool.false_eq_true, if_false] at hrec
      rcases hrec with h1 | h1
      · simp [h1] at hb
      · cases md with
        | zero => simp [relSkip, hb, h1, hmd]
        | succ m => simp [relSkip, hb, h1, hmd, hd']

theorem C2_witness :
    processRel ⟨[], [], [], [], []⟩ (fun _ _ _ _ _ _ => none) "emp" [] none 0
        ([], []) (chainSelfRel none) = some ([], [])
    ∧ processRel ⟨[], [], [], [], []⟩ (fun _ _ _ _ _ _ => none) "emp" [] none 3
        ([], []) (chainSelfRel (some 2)) = some ([], []) :=
  ⟨C2_recursion_depth_policy.1 ⟨[], [], [], [], []⟩ (fun _ _ _ _ _ _ => none) "emp" [] none 0
      ([], []) (chainSelfRel none) (Or.inl rfl) (Or.inl rfl),
   C2_recursion_depth_policy.2.1 ⟨[], [], [], [], []⟩ (fun _ _ _ _ _ _ => none) "emp" [] none 3
      ([], []) (chainSelfRel (some 2)) 2 (Or.inl rfl) rfl (by omega)⟩

-- ── C9: empty matches attach nothing ───────────────────────────────

/-- If every pivot element's looked-up value matches no child row, the
pivot-join loop leaves both the visited set and the pivot array
unchanged. -/
theorem pivotJoinLoop_unchanged (recurse : RecurseFn) (ctid ptid : String) (dep : Nat)
    (ic : Option (List String)) (cn : List String) (childRows : List Obj)
    (remoteCol : String) (siblingCols : List (String × String)) (row : Obj)
    (propName : String) (card : Cardinality) (l : List String)
    (hyp : ∀ idx colName, mapGet siblingCols idx = some colName →
      objHas row colName = true →
      jsMatches childRows remoteCol (some ((objGet row colName).getD .null)) = []) :
    ∀ (i : Nat) (vis : Visited) (pa : List Val),
      pivotJoinLoop recurse ctid ptid dep ic cn childRows remoteCol siblingCols row
        propName card l i vis pa = some (vis, pa) := by
  induction l with
  | nil => intro i vis pa; rfl
  | cons idx rest ih =>
    intro i vis pa
    simp only [pivotJoinLoop]
    by_cases hi : i < pa.length
    · rw [if_pos hi]
      cases hm : mapGet siblingCols idx with
      | none => exact ih i.succ vis pa
      | some colName =>
        by_cases hh : objHas row colName = true
        · have hJ := hyp idx colName hm hh
          simp only [hh, if_true, hJ, List.isEmpty_nil]
          exact ih i.succ vis pa
        · simp only [Bool.not_eq_true] at hh
          simp only [hh, Bool.false_eq_true, if_false]
          exact ih i.succ vis pa
    · rw [if_neg hi]

/-- C9: a relationship with zero matching child rows attaches no
property at all — neither an empty array nor a null value — in both
the standard path (first conjunct) and the pivot-aware path (second
conjunct): the `(visited, projected)` state is returned unchanged. -/
theorem C9_empty_matches (env : BuildEnv) (recurse : RecurseFn) (tableId : String)
    (row : Obj) (parentId : Option String) (depth : Nat) (visited : Visited)
    (projected : Obj) (rel : RelationshipEdge) :
    (findPivotInfo env tableId
        (if rel.sourceTableId == tableId then rel.sourceColumn else rel.targetColumn) = none →
      (∀ childTable, lookupTable env.tables
          (if rel.sourceTableId == tableId then rel.targetTableId else rel.sourceTableId)
          = some childTable →
        jsMatches childTable.rows
          (if rel.sourceTableId == tableId then rel.targetColumn else rel.sourceColumn)
          (objGet row (if rel.sourceTableId == tableId then rel.sourceColumn else rel.targetColumn))
          = []) →
      processRel env recurse tableId row parentId depth (visited, projected) rel
        = some (visited, projected))
    ∧ (∀ pivot siblingCols childTable pivotArray,
      lookupTable env.tables
          (if rel.sourceTableId == tableId then rel.targetTableId else rel.sourceTableId)
          = some childTable →
      findPivotInfo env tableId
          (if rel.sourceTableId == tableId then rel.sourceColumn else rel.targetColumn)
          = some (pivot, siblingCols) →
      objGet projected pivot.arrayName = some (.arr pivotArray) →
      (∀ idx colName, mapGet siblingCols idx = some colName →
        objHas row colName = true →
        jsMatches childTable.rows
          (if rel.sourceTableId == tableId then rel.targetColumn else rel.sourceColumn)
          (some ((objGet row colName).getD .null)) = []) →
      processRel env recurse tableId row parentId depth (visited, projected) rel
        = some (visited, projected)) := by
  constructor
  · intro hpi hmat
    by_cases hs : relSkip tableId parentId depth rel = true
    · simp [processRel, hs]
    · cases hb : rel.sourceTableId == tableId with
      | true =>
        simp only [hb, if_true] at hpi hmat
        cases hct : lookupTable env.tables rel.targetTableId with
        | none => simp [processRel, hs, hb, hct]
        | some childTable =>
          have hm := hmat childTable hct
          simp [processRel, hs, hb, hct, hpi, hm]
      | false =>
        simp only [hb, Bool.false_eq_true, if_false] at hpi hmat
        cases hct : lookupTable env.tables rel.sourceTableId with
        | none => simp [processRel, hs, hb, hct]
        | some childTable =>
          have hm := hmat childTable hct
          simp [processRel, hs, hb, hct, hpi, hm]
  · intro pivot siblingCols childTable pivotArray hct hpi hga hyp
    by_cases hs : relSkip tableId parentId depth rel = true
    · simp [processRel, hs]
    · have hset : objSet projected pivot.arrayName (.arr pivotArray) = projected :=
        objSet_self _ _ _ hga
      cases hb : rel.sourceTableId == tableId with
      | true =>
        simp only [hb, if_true] at hct hpi hyp
        have hloop := fun dep => pivotJoinLoop_unchanged recurse rel.targetTableId tableId
          dep rel.includedColumns (childTableNames env rel.targetTableId) childTable.rows
          rel.targetColumn siblingCols row (rel.propertyName.getD childTable.name)
          (rel.type.getD .oneToMany)
          (pivotSortedIndices ((Option.map (fun t => t.columns) (lookupTable env.tables tableId)).getD []) pivot)
          hyp 0 visited pivotArray
        simp [processRel, hs, hb, hct, hpi, hga, hloop, hset]
      | false =>
        simp only [hb, Bool.false_eq_true, if_false] at hct hpi hyp
        have hloop := fun dep => pivotJoinLoop_unchanged recurse rel.sourceTableId tableId
          dep rel.includedColumns (childTableNames env rel.sourceTableId) childTable.rows
          rel.sourceColumn siblingCols row (rel.propertyName.getD childTable.name)
          (rel.type.getD .oneToMany)
          (pivotSortedIndices ((Option.map (fun t => t.columns) (lookupTable env.tables tableId)).getD []) pivot)
          hyp 0 visited pivotArray
        simp [processRel, hs, hb, hct, hpi, hga, hloop, hset]

/-- Order table with pivotable `Item1`/`Item2` columns. -/
def pivotOrderTable : TableData :=
  ⟨"ord", "Order", ["id", "Item1", "Item2"],
   [[("id", .num 1), ("Item1", .str "A"), ("Item2", .str "B")]]⟩

/-- Product table joined from the pivoted item columns. -/
def pivotProductTable : TableData :=
  ⟨"prod", "Product", ["sku", "price"],
   [[("sku", .str "A"), ("price", .num 5)], [("sku", .str "B"), ("price", .num 7)]]⟩

/-- Relationship whose local join column `Item1` is consumed by the
pivot below. -/
def pivotOrderRel : RelationshipEdge :=
  { sourceTableId := "ord", targetTableId := "prod",
    sourceColumn := "Item1", targetColumn := "sku" }

/-- The pivot collapsing `Item1`/`Item2` into the `Items` array. -/
def itemsPivot : TablePivot := ⟨"ord", "Items", [⟨"Item", "Sku"⟩]⟩

/-- The environment of the pivot-join scenario. -/
def pivotEnv : BuildEnv :=
  ⟨[pivotOrderTable, pivotProductTable], [pivotOrderRel], [], [], [itemsPivot]⟩

theorem C9_witness :
    processRel ⟨[⟨"A", "A", ["id", "b_id"], [[("id", .num 1), ("b_id", .num 1)]]⟩,
        ⟨"B", "B", ["id"], [[("id", .num 99)]]⟩],
        [{ sourceTableId := "A", targetTableId := "B", sourceColumn := "b_id", targetColumn := "id" }],
        [], [], []⟩
      (fun _ _ _ _ _ _ => none) "A" [("b_id", .num 1)] none 0 (["k"], [("b_id", .num 1)])
      { sourceTableId := "A", targetTableId := "B", sourceColumn := "b_id", targetColumn := "id" }
      = some (["k"], [("b_id", .num 1)])
    ∧ processRel pivotEnv (fun _ _ _ _ _ _ => none) "ord" [] none 0
        (["k"], [("Items", .arr [])]) pivotOrderRel
      = some (["k"], [("Items", .arr [])]) :=
  ⟨(C9_empty_matches _ (fun _ _ _ _ _ _ => none) "A" [("b_id", .num 1)] none 0 ["k"]
      [("b_id", .num 1)] _).1 rfl
      (fun ct h => by injection h with h2; subst h2; rfl),
   (C9_empty_matches pivotEnv (fun _ _ _ _ _ _ => none) "ord" [] none 0 ["k"]
      [("Items", .arr [])] pivotOrderRel).2 itemsPivot [("1", "Item1"), ("2", "Item2")]
      pivotProductTable [] rfl rfl rfl
      (fun idx colName hm hh => by simp [objHas] at hh)⟩

-- ── C8: split semantics ────────────────────────────────────────────

theorem objSet_keys_of_present (o : Obj) (k : String) (v v' : Val)
    (h : objGet o k = some v') :
    (objSet o k v).map Prod.fst = o.map Prod.fst := by
  induction o with
  | nil => simp [objGet_nil] at h
  | cons kv rest ih =>
    obtain ⟨k1, v1⟩ := kv
    rw [objGet_cons] at h
    by_cases h1 : k1 = k
    · subst h1; simp [objSet]
    · simp [h1] at h
      simp [objSet, h1, ih h]

/-- The value `applySplits` leaves at key `k`: the first split whose
table and column match transforms a string value, everything else
passes through unchanged. -/
theorem applySplits_get (splits : List ColumnSplit) :
    ∀ (row : Obj) (tableId k : String),
    objGet (applySplits row splits tableId) k =
      match objGet row k with
      | some (.str s) =>
        (match splits.find? (fun sp => sp.tableId == tableId && sp.column == k) with
         | some sp => some (.arr ((jsSplit s sp.delimiter).map (fun p => .str (strTrim p))))
         | none => some (.str s))
      | other => other := by
  induction splits with
  | nil =>
    intro row tid k
    cases h : objGet row k with
    | none => simp [applySplits, h]
    | some v => cases v <;> simp [applySplits, h, List.find?]
  | cons sp rest ih =>
    intro row tid k
    have hstep : applySplits row (sp :: rest) tid
        = applySplits (applySplitStep tid row sp) rest tid := rfl
    rw [hstep, ih]
    by_cases htid : (sp.tableId == tid) = true
    · by_cases hcol : sp.column = k
      · subst hcol
        cases hv : objGet row sp.column with
        | none => simp [applySplitStep, htid, hv, List.find?]
        | some v =>
          cases v with
          | str s =>
            simp [applySplitStep, htid, hv, List.find?, objGet_objSet_self]
          | num n => simp [applySplitStep, htid, hv, List.find?]
          | bool b => simp [applySplitStep, htid, hv, List.find?]
          | null => simp [applySplitStep, htid, hv, List.find?]
          | arr a => simp [applySplitStep, htid, hv, List.find?]
          | obj o => simp [applySplitStep, htid, hv, List.find?]
      · have hget : objGet (applySplitStep tid row sp) k = objGet row k := by
          unfold applySplitStep
          rw [if_pos htid]
          cases hv : objGet row sp.column with
          | none => rfl
          | some v =>
            cases v <;> first
              | rfl
              | exact objGet_objSet_ne row k sp.column _ hcol
        rw [hget]
        have hpred : (sp.tableId == tid && sp.column == k) = false := by
          simp [hcol]
        cases h : objGet row k with
        | none => rfl
        | some v => cases v <;> simp [List.find?, hpred]
    · have hstep2 : applySplitStep tid row sp = row := by
        unfold applySplitStep
        rw [if_neg htid]
      have hpred : (sp.tableId == tid && sp.column == k) = false := by
        simp only [Bool.not_eq_true] at htid
        simp [htid]
      rw [hstep2]
      cases h : objGet row k with
      | none => rfl
      | some v => cases v <;> simp [List.find?, hpred]

/-- The split transform touches values only, never the key set. -/
theorem applySplits_keys (splits : List ColumnSplit) :
    ∀ (row : Obj) (tableId : String),
    (applySplits row splits tableId).map Prod.fst = row.map Prod.fst := by
  induction splits with
  | nil => intro row tid; rfl
  | cons sp rest ih =>
    intro row tid
    have hstep : applySplits row (sp :: rest) tid
        = applySplits (applySplitStep tid row sp) rest tid := rfl
    rw [hstep, ih]
    unfold applySplitStep
    by_cases htid : (sp.tableId == tid) = true
    · rw [if_pos htid]
      cases hv : objGet row sp.column with
      | none => rfl
      | some v =>
        cases v <;> first
          | rfl
          | exact objSet_keys_of_present row sp.column _ _ hv
    · rw [if_neg htid]

/-- C8: for every row and split list, the split column's string values
are replaced by the trimmed delimiter-separated pieces (the first
matching split rule applies; a value already turned into an array is
not split again), non-string values pass through unchanged, the key
set of the row is untouched, and splits are always applied before
pivots.  The embedding is pure — `applySplits` builds a new object
from a copy (`{...row}` in the source) and the input row value is a
separate, unchanged term. -/
theorem C8_split_transform (row : Obj) (splits : List ColumnSplit)
    (tableId k : String) (allColumns : List String) (pivots : List TablePivot) :
    (objGet (applySplits row splits tableId) k =
      match objGet row k with
      | some (.str s) =>
        (match splits.find? (fun sp => sp.tableId == tableId && sp.column == k) with
         | some sp => some (.arr ((jsSplit s sp.delimiter).map (fun p => .str (strTrim p))))
         | none => some (.str s))
      | other => other)
    ∧ (applySplits row splits tableId).map Prod.fst = row.map Prod.fst
    ∧ applyTransforms row tableId allColumns splits pivots
        = applyPivots (applySplits row splits tableId) pivots tableId allColumns :=
  ⟨applySplits_get splits row tableId k, applySplits_keys splits row tableId, rfl⟩

-- ── C6: the includedColumns filter ─────────────────────────────────

/-- Alpha table for the column-filter scenario. -/
def alphaTable : TableData := ⟨"A", "Alpha", ["id", "b_id"], [[("id", .num 1), ("b_id", .num 10)]]⟩

/-- Beta table, child of Alpha, with its own child Ceta. -/
def betaTable : TableData :=
  ⟨"B", "Beta", ["id", "x", "c_id"], [[("id", .num 10), ("x", .num 3), ("c_id", .num 20)]]⟩

/-- Ceta table, child of Beta. -/
def cetaTable : TableData := ⟨"C", "Ceta", ["id"], [[("id", .num 20)]]⟩

/-- Alpha→Beta edge whose `includedColumns` whitelists only `x`. -/
def relAlphaBeta : RelationshipEdge :=
  { sourceTableId := "A", targetTableId := "B", sourceColumn := "b_id", targetColumn := "id",
    includedColumns := some ["x"] }

/-- Beta→Ceta edge attaching under the `propertyName` override `Zed`. -/
def relBetaCetaOverride : RelationshipEdge :=
  { sourceTableId := "B", targetTableId := "C", sourceColumn := "c_id", targetColumn := "id",
    propertyName := some "Zed" }

/-- Beta→Ceta edge attaching under the default name (`Ceta`). -/
def relBetaCetaDefault : RelationshipEdge :=
  { sourceTableId := "B", targetTableId := "C", sourceColumn := "c_id", targetColumn := "id" }

/-- C6 counterexample: with `includedColumns = ["x"]` on Alpha→Beta
and the Beta→Ceta join attached under the `propertyName` override
`Zed`, the nested join result is dropped from the built Beta object
(first conjunct: only `x` survives), although it is a genuine nested
join result — removing the parent edge's filter shows `Zed` present
(second conjunct); keys equal to the related table's display name
survive the same filter (third conjunct).  This refutes the claim
that a nested join result is never dropped when its key comes from a
`propertyName` override: the filter whitelist is
`includedColumns ∪ {related table display names}`, which does not
contain override names. -/
theorem C6_cex :
    buildJoinedDocument 10 "A" 0 [alphaTable, betaTable, cetaTable]
        [relAlphaBeta, relBetaCetaOverride] [] [] []
      = .doc [("Alpha", .obj [("id", .num 1), ("b_id", .num 10),
          ("Beta", .arr [.obj [("x", .num 3)]])])]
    ∧ buildJoinedDocument 10 "A" 0 [alphaTable, betaTable, cetaTable]
        [{ sourceTableId := "A", targetTableId := "B", sourceColumn := "b_id", targetColumn := "id" },
         relBetaCetaOverride] [] [] []
      = .doc [("Alpha", .obj [("id", .num 1), ("b_id", .num 10),
          ("Beta", .arr [.obj [("id", .num 10), ("x", .num 3), ("c_id", .num 20),
            ("Zed", .arr [.obj [("id", .num 20)]])]])])]
    ∧ buildJoinedDocument 10 "A" 0 [alphaTable, betaTable, cetaTable]
        [relAlphaBeta, relBetaCetaDefault] [] [] []
      = .doc [("Alpha", .obj [("id", .num 1), ("b_id", .num 10),
          ("Beta", .arr [.obj [("x", .num 3),
            ("Ceta", .arr [.obj [("id", .num 20)]])]])])] :=
  ⟨rfl, rfl, rfl⟩

/-- C6 (amended): with a non-empty `includedColumns` list, the built
child object keeps exactly the keys that are declared included or are
equal to the display name of a table related to the child by some
relationship (`childTableNames`); a nested join result attached under
its child table's display name therefore survives, but one attached
under a `propertyName` override is dropped unless explicitly
whitelisted. -/
theorem C6_key_filter (l names : List String) (o : Obj) (k : String) (h : l ≠ []) :
    objGet (filterNestedCols (some l) names o) k
      = if l.contains k || names.contains k then objGet o k else none := by
  have hne : l.isEmpty = false := by
    cases l with
    | nil => exact absurd rfl h
    | cons a as => rfl
  simp only [filterNestedCols, hne, Bool.false_eq_true, if_false]
  exact objGet_filterKeys (fun key => l.contains key || names.contains key) o k

theorem C6_witness :
    (["x"] : List String) ≠ []
    ∧ objGet (filterNestedCols (some ["x"]) ["Alpha", "Ceta"]
        [("id", .num 10), ("x", .num 3), ("Zed", .arr []), ("Ceta", .arr [])]) "Zed" = none
    ∧ objGet (filterNestedCols (some ["x"]) ["Alpha", "Ceta"]
        [("id", .num 10), ("x", .num 3), ("Zed", .arr []), ("Ceta", .arr [])]) "Ceta"
        = some (.arr []) :=
  ⟨by simp,
   by rw [C6_key_filter ["x"] ["Alpha", "Ceta"] _ "Zed" (by simp)]; rfl,
   by rw [C6_key_filter ["x"] ["Alpha", "Ceta"] _ "Ceta" (by simp)]; rfl⟩

-- ── C5: pivot index sort order ─────────────────────────────────────

theorem sortInsert_perm (le : String → String → Bool) (x : String) :
    ∀ l : List String, (sortInsert le x l).Perm (x :: l) := by
  intro l
  induction l with
  | nil => exact List.Perm.refl _
  | cons y ys ih =>
    simp only [sortInsert]
    by_cases h : le x y = true
    · rw [if_pos h]
    · rw [if_neg h]
      exact (ih.cons y).trans (List.Perm.swap x y ys)

theorem stableSort_perm (le : String → String → Bool) :
    ∀ l : List String, (stableSort le l).Perm l := by
  intro l
  induction l with
  | nil => exact List.Perm.refl _
  | cons x xs ih =>
    exact (sortInsert_perm le x (stableSort le xs)).trans (ih.cons x)

theorem sortInsert_sorted_numeric (x : String) (nx : Int) (hx : jsNumber x = some nx) :
    ∀ l : List String, (∀ a ∈ l, (jsNumber a).isSome = true) →
    l.Pairwise (fun a b => (jsNumber a).getD 0 ≤ (jsNumber b).getD 0) →
    (sortInsert (fun a b => jsIdxCmp a b ≤ 0) x l).Pairwise
      (fun a b => (jsNumber a).getD 0 ≤ (jsNumber b).getD 0) := by
  intro l
  induction l with
  | nil => intro _ _; simp [sortInsert]
  | cons y ys ih =>
    intro hall hp
    obtain ⟨ny, hny⟩ := Option.isSome_iff_exists.mp (hall y (by simp))
    rw [List.pairwise_cons] at hp
    obtain ⟨hyys, hys⟩ := hp
    simp only [sortInsert]
    by_cases hle : (decide (jsIdxCmp x y ≤ 0)) = true
    · rw [if_pos hle]
      have hxy : (jsNumber x).getD 0 ≤ (jsNumber y).getD 0 := by
        have h1 := of_decide_eq_true hle
        simp only [jsIdxCmp, hx, hny] at h1
        simp only [hx, hny, Option.getD_some]
        omega
      refine List.Pairwise.cons ?_ (List.Pairwise.cons hyys hys)
      intro a ha
      rcases List.mem_cons.mp ha with h | h
      · exact h ▸ hxy
      · exact le_trans hxy (hyys a h)
    · rw [if_neg hle]
      have hyx : (jsNumber y).getD 0 ≤ (jsNumber x).getD 0 := by
        have h1 : ¬(jsIdxCmp x y ≤ 0) := fun hcon => hle (decide_eq_true hcon)
        simp only [jsIdxCmp, hx, hny] at h1
        simp only [hx, hny, Option.getD_some]
        omega
      refine List.Pairwise.cons ?_ (ih (fun a ha => hall a (by simp [ha])) hys)
      intro a ha
      have hmem := (sortInsert_perm (fun a b => jsIdxCmp a b ≤ 0) x ys).mem_iff.mp ha
      rcases List.mem_cons.mp hmem with h | h
      · exact h ▸ hyx
      · exact hyys a h

theorem stableSort_sorted_numeric :
    ∀ l : List String, (∀ a ∈ l, (jsNumber a).isSome = true) →
    (stableSort (fun a b => jsIdxCmp a b ≤ 0) l).Pairwise
      (fun a b => (jsNumber a).getD 0 ≤ (jsNumber b).getD 0) := by
  intro l
  induction l with
  | nil => intro _; simp [stableSort]
  | cons x xs ih =>
    intro hall
    obtain ⟨nx, hnx⟩ := Option.isSome_iff_exists.mp (hall x (by simp))
    have hsub : ∀ a ∈ stableSort (fun a b => jsIdxCmp a b ≤ 0) xs, (jsNumber a).isSome = true :=
      fun a ha => hall a (by
        simp [(stableSort_perm (fun a b => jsIdxCmp a b ≤ 0) xs).mem_iff.mp ha])
    exact sortInsert_sorted_numeric x nx hnx _ hsub (ih (fun a ha => hall a (by simp [ha])))

/-- C5 counterexample: over columns `Item2`, `Item10`, `ItemX` the
index set is `{2, 10, X}`; `X` does not parse as a number, so the
claim requires the whole set to be ordered lexicographically, i.e.
`[10, 2, X]` (second conjunct).  The code instead compares pairwise —
numeric for the pair (2, 10), lexicographic only for pairs involving
`X` — and produces `[2, 10, X]` (first conjunct). -/
theorem C5_cex :
    pivotSortedIndices ["Item2", "Item10", "ItemX"] ⟨"t", "Items", [⟨"Item", "It"⟩]⟩
      = ["2", "10", "X"]
    ∧ stableSort (fun a b => lexCmp a b ≤ 0) ["2", "10", "X"] = ["10", "2", "X"]
    ∧ (["2", "10", "X"] : List String) ≠ ["10", "2", "X"] :=
  ⟨rfl, rfl, by decide⟩

/-- C5 (amended): the union of indices of a pivot is sorted with the
pairwise comparator `jsIdxCmp` — numeric difference when both indices
of the compared pair parse as numbers, lexicographic otherwise — and
the output array is built in that order.  When every index in the set
parses as a number the whole set is therefore sorted numerically
(third conjunct); a non-numeric index only forces lexicographic
comparison on the pairs involving it, not on the whole set.  The sort
is a permutation of the index set (second conjunct). -/
theorem C5_index_sort (allColumns : List String) (pivot : TablePivot) :
    pivotSortedIndices allColumns pivot
      = jsSortIndices (dedupFirst
          ((pivot.groups.map (fun g => matchGroupColumns allColumns g.pattern)).flatMap
            (fun cols => cols.map (fun kv => kv.1))))
    ∧ (∀ l : List String, (jsSortIndices l).Perm l)
    ∧ (∀ l : List String, (∀ a ∈ l, (jsNumber a).isSome = true) →
        (jsSortIndices l).Pairwise
          (fun a b => (jsNumber a).getD 0 ≤ (jsNumber b).getD 0)) :=
  ⟨rfl,
   fun l => stableSort_perm _ l,
   fun l hall => stableSort_sorted_numeric l hall⟩

theorem C5_witness :
    (∀ a ∈ (["2", "10", "7"] : List String), (jsNumber a).isSome = true)
    ∧ (jsSortIndices ["2", "10", "7"]).Pairwise
        (fun a b => (jsNumber a).getD 0 ≤ (jsNumber b).getD 0)
    ∧ (jsSortIndices ["2", "10", "7"]).Perm ["2", "10", "7"] :=
  ⟨by decide,
   (C5_index_sort [] ⟨"t", "Items", []⟩).2.2 ["2", "10", "7"] (by decide),
   (C5_index_sort [] ⟨"t", "Items", []⟩).2.1 ["2", "10", "7"]⟩

-- ── C3: cardinality merge and reverse-edge dedup ───────────────────

theorem uniqVals_mem_aux (l : List Val) :
    ∀ (acc : List Val × List Val) (v : Val),
      v ∈ (l.foldl
        (fun (acc : List Val × List Val) v =>
          if (acc.2.any (fun w => Val.beq w v)) then acc
          else (acc.1 ++ [v], acc.2 ++ [v])) acc).1 →
      v ∈ acc.1 ∨ v ∈ l := by
  induction l with
  | nil => intro acc v hv; exact Or.inl hv
  | cons w ws ih =>
    intro acc v hv
    rw [List.foldl_cons] at hv
    rcases ih _ v hv with h | h
    · by_cases hw : (acc.2.any (fun u => Val.beq u w)) = true
      · rw [if_pos hw] at h; exact Or.inl h
      · rw [if_neg hw] at h
        simp only [List.mem_append, List.mem_singleton] at h
        rcases h with h | h
        · exact Or.inl h
        · exact Or.inr (by simp [h])
    · exact Or.inr (by simp [h])

/-- Deduplication only drops elements: membership in `uniqVals l`
implies membership in `l`. -/
theorem uniqVals_mem (l : List Val) (v : Val) (hv : v ∈ uniqVals l) : v ∈ l := by
  rcases uniqVals_mem_aux l ([], []) v hv with h | h
  · simp at h
  · exact h

theorem buildChildList_fold_obj (recurse : RecurseFn) (ctid ptid : String) (dep : Nat)
    (ic : Option (List String)) (cn : List String) :
    ∀ (ms : List (Nat × Obj)) (start : Visited × List Val) (out : Visited × List Val),
      (∀ v ∈ start.2, ∃ fields, v = .obj fields) →
      ms.foldlM
        (fun (acc : Visited × List Val) im =>
          match recurse ctid im.2 im.1 ptid dep acc.1 with
          | some (vis', node) =>
            some (vis', acc.2 ++ [Val.obj (filterNestedCols ic cn node)])
          | none => none) start = some out →
      ∀ v ∈ out.2, ∃ fields, v = .obj fields := by
  intro ms
  induction ms with
  | nil =>
    intro start out hstart hfold
    have heq : start = out := by simpa using hfold
    exact heq ▸ hstart
  | cons m rest ih =>
    intro start out hstart hfold
    rw [List.foldlM_cons] at hfold
    cases hr : recurse ctid m.2 m.1 ptid dep start.1 with
    | none => rw [hr] at hfold; simp at hfold
    | some p =>
      obtain ⟨vis', node⟩ := p
      rw [hr] at hfold
      simp only [Option.bind_some] at hfold
      refine ih _ out ?_ hfold
      intro v hv
      simp only [List.mem_append, List.mem_singleton] at hv
      rcases hv with h | h
      · exact hstart v h
      · exact ⟨filterNestedCols ic cn node, h⟩

/-- Every entry of a deduplicated built child list is an object (the
`filterNestedCols(buildNested(...))` result wrapped as a value) —
in particular `nested[0]`, the value attached for a one-to-one edge,
is a single object and never an array. -/
theorem buildChildList_all_obj (recurse : RecurseFn) (ctid ptid : String) (dep : Nat)
    (ic : Option (List String)) (cn : List String) (ms : List (Nat × Obj))
    (vis vis' : Visited) (nested : List Val)
    (h : buildChildList recurse ctid ptid dep ic cn ms vis = some (vis', nested)) :
    ∀ v ∈ nested, ∃ fields, v = .obj fields := by
  unfold buildChildList at h
  cases hf : ms.foldlM
      (fun (acc : Visited × List Val) im =>
        match recurse ctid im.2 im.1 ptid dep acc.1 with
        | some (vis', node) =>
          some (vis', acc.2 ++ [Val.obj (filterNestedCols ic cn node)])
        | none => none) (vis, []) with
  | none => rw [hf] at h; simp at h
  | some p =>
    obtain ⟨vis2, nodes⟩ := p
    rw [hf] at h
    simp only [Option.some_inj, Prod.mk.injEq] at h
    obtain ⟨_, hn⟩ := h
    intro v hv
    exact buildChildList_fold_obj recurse ctid ptid dep ic cn ms (vis, []) (vis2, nodes)
      (by simp) hf v (uniqVals_mem _ _ (hn ▸ hv))

/-- Lead table of the reverse-edge dedup scenario. -/
def dedupATable : TableData := ⟨"A", "A", ["id", "b_id"], [[("id", .num 1), ("b_id", .num 10)]]⟩

/-- Child table of the reverse-edge dedup scenario. -/
def dedupBTable : TableData := ⟨"B", "B", ["id", "val"], [[("id", .num 10), ("val", .str "x")]]⟩

/-- Grandchild table that makes the two passes build `B` differently. -/
def dedupCTable : TableData := ⟨"C", "C", ["id", "b_ref"], [[("id", .num 7), ("b_ref", .num 10)]]⟩

/-- The forward edge A→B. -/
def relABdedup : RelationshipEdge :=
  { sourceTableId := "A", targetTableId := "B", sourceColumn := "b_id", targetColumn := "id" }

/-- The reverse edge B→A over the same column pair. -/
def relBAdedup : RelationshipEdge :=
  { sourceTableId := "B", targetTableId := "A", sourceColumn := "id", targetColumn := "b_id" }

/-- A C→B edge giving B a child of its own. -/
def relCBdedup : RelationshipEdge :=
  { sourceTableId := "C", targetTableId := "B", sourceColumn := "b_ref", targetColumn := "id" }

set_option maxRecDepth 10000 in
/-- C3 counterexample: with both `A->B` and `B->A` declared and `B`
having a child table `C`, the `B` array of the built document holds
TWO entries for the single distinct matching row of `B` (second
conjunct: exactly one row of `B` matches).  The first pass embeds `B`
expanded with its `C` children; the second pass hits the visited set,
rebuilds `B` unexpanded, and the two serializations differ, so the
concat-and-dedup step keeps both.  This refutes "declaring both A->B
and B->A yields exactly one entry per distinct match".
(`maxRecDepth` is raised for this kernel evaluation below.) -/
theorem C3_cex :
    buildJoinedDocument 10 "A" 0 [dedupATable, dedupBTable, dedupCTable]
        [relABdedup, relBAdedup, relCBdedup] [] [] []
      = .doc [("A", .obj [("id", .num 1), ("b_id", .num 10),
          ("B", .arr
            [.obj [("id", .num 10), ("val", .str "x"),
                   ("C", .arr [.obj [("id", .num 7), ("b_ref", .num 10)]])],
             .obj [("id", .num 10), ("val", .str "x")]])])]
    ∧ jsMatches dedupBTable.rows "id" (some (.num 10))
      = [(0, [("id", .num 10), ("val", .str "x")])] :=
  ⟨rfl, rfl⟩

set_option maxRecDepth 4000 in
/-- C3 (amended): for a standard (non-pivot) relationship with at
least one matching child row, the merge behaves as follows.  With
cardinality one-to-one the first deduplicated match is attached as a
single object — never an array (second conjunct: every entry of the
deduplicated list is an object).  Otherwise the full deduplicated
array is attached under the output property name (default: the child
table's display name); if that property already holds a truthy value
(relationship passes attach non-empty arrays or objects, which are
always truthy) the lists are concatenated and re-deduplicated by
serialized equality rather than overwritten.  Consequently declaring
both `A->B` and `B->A` yields exactly one entry per distinct match
whenever the two passes build each match identically, as in the plain
two-table scenario (third conjunct) — but not in general: a match
whose own children are pruned by the visited set on the second pass
builds differently and contributes a second entry (see the
counterexample). -/
theorem C3_cardinality_merge (env : BuildEnv) (recurse : RecurseFn) (tableId : String)
    (row : Obj) (parentId : Option String) (depth : Nat) (visited vis' : Visited)
    (projected : Obj) (rel : RelationshipEdge) (childTable : TableData)
    (ms : List (Nat × Obj)) (nested : List Val)
    (hs : relSkip tableId parentId depth rel = false)
    (hct : lookupTable env.tables
      (if rel.sourceTableId == tableId then rel.targetTableId else rel.sourceTableId)
      = some childTable)
    (hpi : findPivotInfo env tableId
      (if rel.sourceTableId == tableId then rel.sourceColumn else rel.targetColumn) = none)
    (hm : jsMatches childTable.rows
      (if rel.sourceTableId == tableId then rel.targetColumn else rel.sourceColumn)
      (objGet row (if rel.sourceTableId == tableId then rel.sourceColumn else rel.targetColumn))
      = ms)
    (hms : ms ≠ [])
    (hbc : buildChildList recurse
      (if rel.sourceTableId == tableId then rel.targetTableId else rel.sourceTableId)
      tableId
      (if (parentId == some (if rel.sourceTableId == tableId then rel.targetTableId else rel.sourceTableId)
          || (if rel.sourceTableId == tableId then rel.targetTableId else rel.sourceTableId) == tableId)
        then depth + 1 else 0)
      rel.includedColumns
      (childTableNames env
        (if rel.sourceTableId == tableId then rel.targetTableId else rel.sourceTableId))
      ms visited = some (vis', nested)) :
    processRel env recurse tableId row parentId depth (visited, projected) rel
      = some (vis',
          if rel.type.getD .oneToMany = .oneToOne then
            objSet projected (rel.propertyName.getD childTable.name) (nested.headD .null)
          else
            match objGet projected (rel.propertyName.getD childTable.name) with
            | some existing =>
              if jsTruthy existing then
                objSet projected (rel.propertyName.getD childTable.name)
                  (.arr (uniqVals ((match existing with | .arr a => a | v => [v]) ++ nested)))
              else objSet projected (rel.propertyName.getD childTable.name) (.arr nested)
            | none => objSet projected (rel.propertyName.getD childTable.name) (.arr nested))
    ∧ (∀ v ∈ nested, ∃ fields, v = .obj fields)
    ∧ buildJoinedDocument 10 "A" 0 [dedupATable, dedupBTable] [relABdedup, relBAdedup] [] [] []
        = .doc [("A", .obj [("id", .num 1), ("b_id", .num 10),
            ("B", .arr [.obj [("id", .num 10), ("val", .str "x")]])])] := by
  refine ⟨?_, buildChildList_all_obj _ _ _ _ _ _ _ _ _ _ hbc, rfl⟩
  have hmse : ms.isEmpty = false := by
    cases ms with
    | nil => exact absurd rfl hms
    | cons a as => rfl
  cases hb : rel.sourceTableId == tableId with
  | true =>
    simp only [hb, if_true] at hct hpi hm hbc
    simp_all [processRel]
  | false =>
    simp only [hb, Bool.false_eq_true, if_false] at hct hpi hm hbc
    simp_all [processRel]

theorem C3_witness :
    processRel ⟨[dedupATable, dedupBTable], [relABdedup], [], [], []⟩
        (fun _ r _ _ _ vis => some (vis, r)) "A" [("id", .num 1), ("b_id", .num 10)] none 0
        (["k"], [("id", .num 1), ("b_id", .num 10)]) relABdedup
      = some (["k"], [("id", .num 1), ("b_id", .num 10),
          ("B", .arr [.obj [("id", .num 10), ("val", .str "x")]])]) := by
  have h := C3_cardinality_merge ⟨[dedupATable, dedupBTable], [relABdedup], [], [], []⟩
    (fun _ r _ _ _ vis => some (vis, r)) "A" [("id", .num 1), ("b_id", .num 10)] none 0
    ["k"] ["k"] [("id", .num 1), ("b_id", .num 10)] relABdedup dedupBTable
    [(0, [("id", .num 10), ("val", .str "x")])] [.obj [("id", .num 10), ("val", .str "x")]]
    rfl rfl rfl rfl (by simp) rfl
  exact h.1.trans (by rfl)

-- ── C1: per-element pivot joins ────────────────────────────────────

theorem getD_set_ne (a d : Val) : ∀ (l : List Val) (i j : Nat), i ≠ j →
    (l.set i a).getD j d = l.getD j d := by
  intro l
  induction l with
  | nil => intro i j _; simp
  | cons x xs ih =>
    intro i j hij
    cases i with
    | zero =>
      cases j with
      | zero => exact absurd rfl hij
      | succ j' => simp only [List.set, List.getD_cons_succ]
    | succ i' =>
      cases j with
      | zero => simp only [List.set, List.getD_cons_zero]
      | succ j' =>
        simp only [List.set, List.getD_cons_succ]
        exact ih i' j' (fun hc => hij (by rw [hc]))

theorem getD_set_self (a d : Val) : ∀ (l : List Val) (i : Nat), i < l.length →
    (l.set i a).getD i d = a := by
  intro l
  induction l with
  | nil => intro i h; simp at h
  | cons x xs ih =>
    intro i h
    cases i with
    | zero => simp [List.set]
    | succ i' =>
      simp only [List.set, List.getD_cons_succ]
      exact ih i' (by simpa using h)

/-- Full characterization of the pivot-join loop: the array keeps its
length, positions outside the processed window are untouched, and the
t-th processed position is rewritten exactly when its index resolves
to a sibling column present in the raw row with a non-empty match
list — in that case the element (an object) gains `propName` bound to
that element's own matches, and a non-object element is left alone. -/
theorem pivotJoinLoop_spec (recurse : RecurseFn) (ctid ptid : String) (dep : Nat)
    (ic : Option (List String)) (cn : List String) (childRows : List Obj)
    (remoteCol : String) (siblingCols : List (String × String)) (row : Obj)
    (propName : String) (card : Cardinality) :
    ∀ (l : List String) (i : Nat) (vis : Visited) (pa : List Val)
      (vis'' : Visited) (pa'' : List Val),
      pivotJoinLoop recurse ctid ptid dep ic cn childRows remoteCol siblingCols row
        propName card l i vis pa = some (vis'', pa'') →
      pa''.length = pa.length
      ∧ (∀ j, (j < i ∨ i + l.length ≤ j) → pa''.getD j .null = pa.getD j .null)
      ∧ (∀ t, t < l.length →
          if i + t < pa.length then
            (match mapGet siblingCols (l.getD t "") with
             | none => pa''.getD (i + t) .null = pa.getD (i + t) .null
             | some colName =>
               if objHas row colName = true then
                 (if (jsMatches childRows remoteCol (some ((objGet row colName).getD .null))).isEmpty = true then
                   pa''.getD (i + t) .null = pa.getD (i + t) .null
                 else
                   ∃ visIn visOut nested,
                     buildChildList recurse ctid ptid dep ic cn
                       (jsMatches childRows remoteCol (some ((objGet row colName).getD .null)))
                       visIn = some (visOut, nested)
                     ∧ pa''.getD (i + t) .null =
                       (match pa.getD (i + t) .null with
                        | .obj fields => Val.obj (objSet fields propName (attachVal card nested))
                        | other => other))
               else pa''.getD (i + t) .null = pa.getD (i + t) .null)
          else pa''.getD (i + t) .null = pa.getD (i + t) .null) := by
  intro l
  induction l with
  | nil =>
    intro i vis pa vis'' pa'' h
    simp only [pivotJoinLoop, Option.some_inj, Prod.mk.injEq] at h
    obtain ⟨hv, hp⟩ := h
    subst hp
    exact ⟨rfl, fun j _ => rfl, fun t ht => absurd ht (by simp)⟩
  | cons idx rest ih =>
    intro i vis pa vis'' pa'' h
    simp only [pivotJoinLoop] at h
    by_cases hi : i < pa.length
    · rw [if_pos hi] at h
      cases hm : mapGet siblingCols idx with
      | none =>
        simp only [hm] at h
        obtain ⟨IH1, IH2, IH3⟩ := ih (i + 1) vis pa vis'' pa'' h
        refine ⟨IH1, ?_, ?_⟩
        · intro j hj
          refine IH2 j ?_
          rcases hj with hl | hr
          · exact Or.inl (by omega)
          · simp only [List.length_cons] at hr
            exact Or.inr (by omega)
        · intro t ht
          cases t with
          | zero =>
            rw [if_pos (by omega)]
            simp only [List.getD_cons_zero, hm]
            exact IH2 i (Or.inl (by omega))
          | succ t' =>
            have ht' : t' < rest.length := by simpa using ht
            have harith : i + (t' + 1) = (i + 1) + t' := by omega
            rw [harith]
            simp only [List.getD_cons_succ]
            exact IH3 t' ht'
      | some colName =>
        simp only [hm] at h
        by_cases hh : objHas row colName = true
        · rw [if_pos hh] at h
          by_cases hempty : (jsMatches childRows remoteCol
              (some ((objGet row colName).getD .null))).isEmpty = true
          · rw [if_pos hempty] at h
            obtain ⟨IH1, IH2, IH3⟩ := ih (i + 1) vis pa vis'' pa'' h
            refine ⟨IH1, ?_, ?_⟩
            · intro j hj
              refine IH2 j ?_
              rcases hj with hl | hr
              · exact Or.inl (by omega)
              · simp only [List.length_cons] at hr
                exact Or.inr (by omega)
            · intro t ht
              cases t with
              | zero =>
                rw [if_pos (by omega)]
                simp only [List.getD_cons_zero, hm]
                rw [if_pos hh, if_pos hempty]
                exact IH2 i (Or.inl (by omega))
              | succ t' =>
                have ht' : t' < rest.length := by simpa using ht
                have harith : i + (t' + 1) = (i + 1) + t' := by omega
                rw [harith]
                simp only [List.getD_cons_succ]
                exact IH3 t' ht'
          · rw [if_neg hempty] at h
            cases hbc : buildChildList recurse ctid ptid dep ic cn
                (jsMatches childRows remoteCol (some ((objGet row colName).getD .null)))
                vis with
            | none => rw [hbc] at h; simp at h
            | some p =>
              obtain ⟨vis1, nested⟩ := p
              simp only [hbc] at h
              obtain ⟨IH1, IH2, IH3⟩ := ih (i + 1) vis1 _ vis'' pa'' h
              refine ⟨by simpa using IH1, ?_, ?_⟩
              · intro j hj
                have hstep : pa''.getD j .null
                    = (pa.set i (match pa.getD i .null with
                        | .obj fields => Val.obj (objSet fields propName (attachVal card nested))
                        | other => other)).getD j .null := by
                  refine IH2 j ?_
                  rcases hj with hl | hr
                  · exact Or.inl (by omega)
                  · simp only [List.length_cons] at hr
                    exact Or.inr (by omega)
                rw [hstep]
                refine getD_set_ne _ .null pa i j ?_
                rcases hj with hl | hr
                · omega
                · simp only [List.length_cons] at hr; omega
              · intro t ht
                cases t with
                | zero =>
                  rw [if_pos (by omega)]
                  simp only [List.getD_cons_zero, hm]
                  rw [if_pos hh, if_neg hempty]
                  refine ⟨vis, vis1, nested, hbc, ?_⟩
                  have hstep := IH2 i (Or.inl (by omega))
                  simp only [Nat.add_zero]
                  rw [hstep]
                  exact getD_set_self _ .null pa i hi
                | succ t' =>
                  have ht' : t' < rest.length := by simpa using ht
                  have harith : i + (t' + 1) = (i + 1) + t' := by omega
                  have IHt := IH3 t' ht'
                  rw [List.length_set] at IHt
                  rw [getD_set_ne _ .null pa i ((i + 1) + t') (by omega)] at IHt
                  rw [harith]
                  simp only [List.getD_cons_succ]
                  exact IHt
        · rw [if_neg hh] at h
          obtain ⟨IH1, IH2, IH3⟩ := ih (i + 1) vis pa vis'' pa'' h
          refine ⟨IH1, ?_, ?_⟩
          · intro j hj
            refine IH2 j ?_
            rcases hj with hl | hr
            · exact Or.inl (by omega)
            · simp only [List.length_cons] at hr
              exact Or.inr (by omega)
          · intro t ht
            cases t with
            | zero =>
              rw [if_pos (by omega)]
              simp only [List.getD_cons_zero, hm]
              rw [if_neg hh]
              exact IH2 i (Or.inl (by omega))
            | succ t' =>
              have ht' : t' < rest.length := by simpa using ht
              have harith : i + (t' + 1) = (i + 1) + t' := by omega
              rw [harith]
              simp only [List.getD_cons_succ]
              exact IH3 t' ht'
    · rw [if_neg hi] at h
      simp only [Option.some_inj, Prod.mk.injEq] at h
      obtain ⟨hv, hp⟩ := h
      subst hp
      refine ⟨rfl, fun j _ => rfl, ?_⟩
      intro t ht
      rw [if_neg (by omega)]

set_option maxRecDepth 4000 in
set_option maxHeartbeats 2000000 in
/-- C1: when the local join column of a relationship is consumed by a
`TablePivot` on the row's table (`findPivotInfo` succeeds) and the
projected row carries the built pivot array, the join is performed
once per element of that array, walking the same sorted index list
`pivotSortedIndices` used to build it (third–fifth conjuncts): the
element at position `t` looks up the original pre-pivot column value
`row[siblingCols(sortedIndices[t])]` in the raw row, matches child
rows by strict equality on the remote column against that element's
own value, and the built matches are attached as a property inside
that element object; elements whose index has no sibling column,
whose column is absent from the raw row, or whose value matches
nothing are left untouched, as are positions beyond either bound.
The updated array replaces the pivot array in place and every other
property of the projected row is unchanged — the child data is never
attached as a sibling of the array (second conjunct). -/
theorem C1_pivot_element_join (env : BuildEnv) (recurse : RecurseFn) (tableId : String)
    (row : Obj) (parentId : Option String) (depth : Nat) (visited vis'' : Visited)
    (projected : Obj) (rel : RelationshipEdge) (childTable : TableData)
    (pivot : TablePivot) (siblingCols : List (String × String))
    (pivotArray newArr : List Val)
    (hs : relSkip tableId parentId depth rel = false)
    (hct : lookupTable env.tables
      (if rel.sourceTableId == tableId then rel.targetTableId else rel.sourceTableId)
      = some childTable)
    (hpi : findPivotInfo env tableId
      (if rel.sourceTableId == tableId then rel.sourceColumn else rel.targetColumn)
      = some (pivot, siblingCols))
    (hga : objGet projected pivot.arrayName = some (.arr pivotArray))
    (hloop : pivotJoinLoop recurse
      (if rel.sourceTableId == tableId then rel.targetTableId else rel.sourceTableId)
      tableId
      (if (parentId == some (if rel.sourceTableId == tableId then rel.targetTableId else rel.sourceTableId)
          || (if rel.sourceTableId == tableId then rel.targetTableId else rel.sourceTableId) == tableId)
        then depth + 1 else 0)
      rel.includedColumns
      (childTableNames env
        (if rel.sourceTableId == tableId then rel.targetTableId else rel.sourceTableId))
      childTable.rows
      (if rel.sourceTableId == tableId then rel.targetColumn else rel.sourceColumn)
      siblingCols row (rel.propertyName.getD childTable.name) (rel.type.getD .oneToMany)
      (pivotSortedIndices ((Option.map (fun t => t.columns) (lookupTable env.tables tableId)).getD []) pivot)
      0 visited pivotArray = some (vis'', newArr)) :
    processRel env recurse tableId row parentId depth (visited, projected) rel
      = some (vis'', objSet projected pivot.arrayName (.arr newArr))
    ∧ (∀ k, k ≠ pivot.arrayName →
        objGet (objSet projected pivot.arrayName (.arr newArr)) k = objGet projected k)
    ∧ newArr.length = pivotArray.length
    ∧ (∀ j, (pivotSortedIndices ((Option.map (fun t => t.columns) (lookupTable env.tables tableId)).getD []) pivot).length ≤ j →
        newArr.getD j .null = pivotArray.getD j .null)
    ∧ (∀ t, t < (pivotSortedIndices ((Option.map (fun t => t.columns) (lookupTable env.tables tableId)).getD []) pivot).length →
        if t < pivotArray.length then
          (match mapGet siblingCols
              ((pivotSortedIndices ((Option.map (fun t => t.columns) (lookupTable env.tables tableId)).getD []) pivot).getD t "") with
           | none => newArr.getD t .null = pivotArray.getD t .null
           | some colName =>
             if objHas row colName = true then
               (if (jsMatches childTable.rows
                    (if rel.sourceTableId == tableId then rel.targetColumn else rel.sourceColumn)
                    (some ((objGet row colName).getD .null))).isEmpty = true then
                 newArr.getD t .null = pivotArray.getD t .null
               else
                 ∃ visIn visOut nested,
                   buildChildList recurse
                     (if rel.sourceTableId == tableId then rel.targetTableId else rel.sourceTableId)
                     tableId
                     (if (parentId == some (if rel.sourceTableId == tableId then rel.targetTableId else rel.sourceTableId)
                         || (if rel.sourceTableId == tableId then rel.targetTableId else rel.sourceTableId) == tableId)
                       then depth + 1 else 0)
                     rel.includedColumns
                     (childTableNames env
                       (if rel.sourceTableId == tableId then rel.targetTableId else rel.sourceTableId))
                     (jsMatches childTable.rows
                       (if rel.sourceTableId == tableId then rel.targetColumn else rel.sourceColumn)
                       (some ((objGet row colName).getD .null)))
                     visIn = some (visOut, nested)
                   ∧ newArr.getD t .null =
                     (match pivotArray.getD t .null with
                      | .obj fields =>
                        Val.obj (objSet fields (rel.propertyName.getD childTable.name)
                          (attachVal (rel.type.getD .oneToMany) nested))
                      | other => other))
             else newArr.getD t .null = pivotArray.getD t .null)
        else newArr.getD t .null = pivotArray.getD t .null) := by
  obtain ⟨S1, S2, S3⟩ := pivotJoinLoop_spec _ _ _ _ _ _ _ _ _ _ _ _ _ _ _ _ _ _ hloop
  refine ⟨?_, ?_, S1, ?_, ?_⟩
  · cases hb : rel.sourceTableId == tableId with
    | true =>
      simp only [hb, if_true] at hct hpi hloop
      simp_all [processRel]
    | false =>
      simp only [hb, Bool.false_eq_true, if_false] at hct hpi hloop
      simp_all [processRel]
  · intro k hk
    exact objGet_objSet_ne projected k pivot.arrayName _ (fun h => hk h.symm)
  · intro j hj
    exact S2 j (Or.inr (by omega))
  · intro t ht
    have := S3 t ht
    simpa using this

set_option maxRecDepth 10000 in
theorem C1_witness :
    processRel pivotEnv
        (fun ctid r i pid dep vis => buildNested pivotEnv 5 ctid r i (some pid) dep vis)
        "ord" [("id", .num 1), ("Item1", .str "A"), ("Item2", .str "B")] none 0
        ([], [("id", .num 1), ("Items", .arr [.obj [("Sku", .str "A")], .obj [("Sku", .str "B")]])])
        pivotOrderRel
      = some (["prod:1:0", "prod:0:0"],
          [("id", .num 1),
           ("Items", .arr
             [.obj [("Sku", .str "A"), ("Product", .arr [.obj [("sku", .str "A"), ("price", .num 5)]])],
              .obj [("Sku", .str "B"), ("Product", .arr [.obj [("sku", .str "B"), ("price", .num 7)]])]])]) := by
  have h := C1_pivot_element_join pivotEnv
    (fun ctid r i pid dep vis => buildNested pivotEnv 5 ctid r i (some pid) dep vis)
    "ord" [("id", .num 1), ("Item1", .str "A"), ("Item2", .str "B")] none 0
    [] ["prod:1:0", "prod:0:0"]
    [("id", .num 1), ("Items", .arr [.obj [("Sku", .str "A")], .obj [("Sku", .str "B")]])]
    pivotOrderRel pivotProductTable itemsPivot [("1", "Item1"), ("2", "Item2")]
    [.obj [("Sku", .str "A")], .obj [("Sku", .str "B")]]
    [.obj [("Sku", .str "A"), ("Product", .arr [.obj [("sku", .str "A"), ("price", .num 5)]])],
     .obj [("Sku", .str "B"), ("Product", .arr [.obj [("sku", .str "B"), ("price", .num 7)]])]]
    rfl rfl rfl rfl rfl
  exact h.1.trans (by rfl)

-- ── C10: the heap model ────────────────────────────────────────────
--
-- The claim that `buildJoinedDocument` never mutates its inputs is a
-- statement about the JavaScript heap, which the pure embedding above
-- cannot express.  This section re-embeds the engine in store-passing
-- style: table cells are `HVal`s (primitives or references), objects
-- and arrays live in an explicit `Store`, rows are store addresses,
-- `===` compares references by address, and the source's in-place
-- property writes become explicit `storeSet` operations.  The frame
-- theorem then states that every store entry present before the call
-- is untouched afterwards.  Local mutation of an object that is still
-- being constructed and has not escaped (`const out = {...row}`
-- followed by writes to `out`) is modelled by building the field list
-- first and allocating once — observationally identical, since the
-- intermediate object is unreachable.

/-- A heap cell value: a primitive or a reference to a heap object. -/
inductive HVal where
  | str (s : String)
  | num (n : Int)
  | bool (b : Bool)
  | null
  | ref (a : Nat)

/-- A heap entry: a JavaScript object or array. -/
inductive HObj where
  | objH (fields : List (String × HVal))
  | arrH (elems : List HVal)

/-- The heap: entries addressed by position. -/
abbrev Store := List HObj

/-- Allocate a fresh entry at the end of the store. -/
def alloc (st : Store) (o : HObj) : Store × Nat :=
  (st ++ [o], st.length)

/-- Overwrite the entry at an address (no-op beyond the store). -/
def storeSet (st : Store) (a : Nat) (o : HObj) : Store :=
  st.set a o

/-- Field read on a heap object's field list. -/
def hGet (o : List (String × HVal)) (k : String) : Option HVal :=
  match o.find? (fun kv => kv.1 == k) with
  | some kv => some kv.2
  | none => none

/-- Field write (existing key keeps its position, new key appended). -/
def hSet (o : List (String × HVal)) (k : String) (v : HVal) : List (String × HVal) :=
  match o with
  | [] => [(k, v)]
  | (k', v') :: rest =>
    if k' == k then (k', v) :: rest else (k', v') :: hSet rest k v

/-- Field delete. -/
def hDelete (o : List (String × HVal)) (k : String) : List (String × HVal) :=
  o.filter (fun kv => kv.1 != k)

/-- The `k in o` test. -/
def hHas (o : List (String × HVal)) (k : String) : Bool :=
  o.any (fun kv => kv.1 == k)

/-- Strict equality `===` on heap values: primitives by value,
references by address — two distinct objects are never equal even if
structurally identical, exactly as in JavaScript. -/
def jsStrictEqH : HVal → HVal → Bool
  | .str a, .str b => a == b
  | .num a, .num b => a == b
  | .bool a, .bool b => a == b
  | .null, .null => true
  | .ref a, .ref b => a == b
  | _, _ => false

/-- `===` on property reads (`undefined === undefined` is true). -/
def jsStrictEqHOpt : Option HVal → Option HVal → Bool
  | none, none => true
  | some a, some b => jsStrictEqH a b
  | _, _ => false

/-- Truthiness of a heap value (references are always truthy). -/
def jsTruthyH : HVal → Bool
  | .str s => s != ""
  | .num n => n != 0
  | .bool b => b
  | .null => false
  | .ref _ => true

/-- The fields of the object at an address (empty when the address is
dangling or holds an array — unreachable for the rows the engine is
given). -/
def rowFields (st : Store) (a : Nat) : List (String × HVal) :=
  match st.get? a with
  | some (.objH f) => f
  | _ => []

/-- Read a heap value back into a pure `Val` tree (the view
`JSON.stringify` serializes); `fuel` bounds the depth. -/
def readHVal : Nat → Store → HVal → Option Val
  | 0, _, _ => none
  | _ + 1, _, .str s => some (.str s)
  | _ + 1, _, .num n => some (.num n)
  | _ + 1, _, .bool b => some (.bool b)
  | _ + 1, _, .null => some .null
  | fuel + 1, st, .ref a =>
    match st.get? a with
    | some (.objH fields) =>
      (fields.mapM (fun kv => (readHVal fuel st kv.2).map (fun v => (kv.1, v)))).map Val.obj
    | some (.arrH elems) => (elems.mapM (readHVal fuel st)).map Val.arr
    | none => none

/-- Equality of optional readback keys. -/
def keyBeq : Option Val → Option Val → Bool
  | none, none => true
  | some a, some b => Val.beq a b
  | _, _ => false

/-- `uniqBy(..., JSON.stringify)` on heap values: first occurrence
kept, keyed by the serialized (read-back) tree. -/
def uniqByKeyH (fuel : Nat) (st : Store) (l : List HVal) : List HVal :=
  (l.foldl
    (fun (acc : List HVal × List (Option Val)) v =>
      let k := readHVal fuel st v
      if acc.2.any (fun w => keyBeq w k) then acc
      else (acc.1 ++ [v], acc.2 ++ [k]))
    ([], [])).1

/-- A loaded table in the heap model: rows are store addresses. -/
structure HTable where
  id : String
  name : String
  columns : List String
  rowAddrs : List Nat

/-- `tableMap.get` over heap tables (last duplicate id wins). -/
def lookupHTable (tables : List HTable) (id : String) : Option HTable :=
  tables.reverse.find? (fun t => t.id == id)

/-- The inputs of one heap-model `buildJoinedDocument` call. -/
structure HBuildEnv where
  tables : List HTable
  relationships : List RelationshipEdge
  columnsFilter : List (String × List String)
  columnSplits : List ColumnSplit
  tablePivots : List TablePivot

/-- One split in the heap model: a string value is replaced by a
reference to a freshly allocated array of trimmed pieces. -/
def applySplitStepH (tableId : String) (acc : Store × List (String × HVal))
    (split : ColumnSplit) : Store × List (String × HVal) :=
  if split.tableId == tableId then
    match hGet acc.2 split.column with
    | some (.str s) =>
      let pieces := (jsSplit s split.delimiter).map (fun p => HVal.str (strTrim p))
      let (st', a) := alloc acc.1 (.arrH pieces)
      (st', hSet acc.2 split.column (.ref a))
    | _ => acc
  else acc

/-- `applySplits` in the heap model. -/
def applySplitsH (st : Store) (row : List (String × HVal)) (splits : List ColumnSplit)
    (tableId : String) : Store × List (String × HVal) :=
  splits.foldl (applySplitStepH tableId) (st, row)

/-- The fields of one pivot element object (`applyPivots` step 4). -/
def pivotElemFields (out : List (String × HVal))
    (groupMaps : List (PivotGroup × List (String × String))) (idx : String) :
    List (String × HVal) :=
  groupMaps.foldl
    (fun (o : List (String × HVal)) gm =>
      match mapGet gm.2 idx with
      | some colName =>
        if hHas out colName then hSet o gm.1.propertyName ((hGet out colName).getD .null) else o
      | none => o)
    []

/-- Does any group contribute a value at this index? -/
def pivotElemHasValue (out : List (String × HVal))
    (groupMaps : List (PivotGroup × List (String × String))) (idx : String) : Bool :=
  groupMaps.any (fun gm => match mapGet gm.2 idx with
    | some colName => hHas out colName
    | none => false)

/-- One step of the pivot element loop: allocate the element object
and collect its reference, or skip a sparse index. -/
def pivotElemStep (out : List (String × HVal))
    (groupMaps : List (PivotGroup × List (String × String)))
    (acc : Store × List HVal) (idx : String) : Store × List HVal :=
  if pivotElemHasValue out groupMaps idx then
    let al := alloc acc.1 (.objH (pivotElemFields out groupMaps idx))
    (al.1, acc.2 ++ [HVal.ref al.2])
  else acc

/-- Remove all matched source columns (`applyPivots` step 5). -/
def clearPivotCols (groupMaps : List (PivotGroup × List (String × String)))
    (out : List (String × HVal)) : List (String × HVal) :=
  groupMaps.foldl
    (fun o gm => gm.2.foldl (fun o' kv => hDelete o' kv.2) o)
    out

/-- One pivot in the heap model: each index in sorted order yields a
freshly allocated element object, the elements are collected into a
freshly allocated array, the matched source columns are removed and
the array reference is bound under `arrayName`. -/
def applyOnePivotH (st : Store) (out : List (String × HVal)) (pivot : TablePivot)
    (allColumns : List String) : Store × List (String × HVal) :=
  let groupMaps := pivot.groups.map (fun g => (g, matchGroupColumns allColumns g.pattern))
  let stArr := (pivotSortedIndices allColumns pivot).foldl (pivotElemStep out groupMaps) (st, [])
  let al := alloc stArr.1 (.arrH stArr.2)
  (al.1, hSet (clearPivotCols groupMaps out) pivot.arrayName (.ref al.2))

/-- `applyPivots` in the heap model. -/
def applyPivotsH (st : Store) (row : List (String × HVal)) (pivots : List TablePivot)
    (tableId : String) (allColumns : List String) : Store × List (String × HVal) :=
  pivots.foldl
    (fun acc pivot =>
      if pivot.tableId == tableId then applyOnePivotH acc.1 acc.2 pivot allColumns else acc)
    (st, row)

/-- `applyTransforms` in the heap model: splits then pivots. -/
def applyTransformsH (st : Store) (row : List (String × HVal)) (tableId : String)
    (allColumns : List String) (splits : List ColumnSplit) (pivots : List TablePivot) :
    Store × List (String × HVal) :=
  let s := applySplitsH st row splits tableId
  applyPivotsH s.1 s.2 pivots tableId allColumns

/-- The column-filter step of `projectRow` (heap model): the copied
or filtered field list of the row. -/
def projectFilterFields (env : HBuildEnv) (tableId : String)
    (row : List (String × HVal)) : List (String × HVal) :=
  match env.columnsFilter.find? (fun kv => kv.1 == tableId) with
  | some kv =>
    if kv.2.isEmpty then row
    else kv.2.foldl
      (fun acc key =>
        if hHas row key then hSet acc key ((hGet row key).getD .null) else acc)
      []
  | none => row

/-- The declared column list used for the transforms. -/
def projectAllColumns (env : HBuildEnv) (tableId : String)
    (row : List (String × HVal)) : List String :=
  match lookupHTable env.tables tableId with
  | some t => t.columns
  | none => row.map (fun kv => kv.1)

/-- `projectRow` in the heap model: copy/filter the row object's
fields, run the transforms, and allocate the projected object. -/
def projectRowH (env : HBuildEnv) (st : Store) (tableId : String) (rowAddr : Nat) :
    Store × Nat :=
  let row := rowFields st rowAddr
  let s := applyTransformsH st (projectFilterFields env tableId row) tableId
    (projectAllColumns env tableId row) env.columnSplits env.tablePivots
  alloc s.1 (.objH s.2)

/-- `findPivotInfo` in the heap model (reads only table metadata). -/
def findPivotInfoH (env : HBuildEnv) (tblId : String) (col : String) :
    Option (TablePivot × List (String × String)) :=
  match lookupHTable env.tables tblId with
  | none => none
  | some tbl =>
    env.tablePivots.findSome? (fun pivot =>
      if pivot.tableId == tblId then
        match groupMatchContaining tbl.columns pivot.groups col with
        | some matched => some (pivot, matched)
        | none => none
      else none)

/-- `childTableNames` in the heap model. -/
def childTableNamesH (env : HBuildEnv) (childTableId : String) : List String :=
  (env.relationships.filter
      (fun r => r.sourceTableId == childTableId || r.targetTableId == childTableId)).filterMap
    (fun r =>
      let tid := if r.sourceTableId == childTableId then r.targetTableId else r.sourceTableId
      (lookupHTable env.tables tid).map (fun t => t.name))

/-- `filterNestedCols` in the heap model: without a filter the child
object itself is attached (the same reference); with one, a fresh
filtered object is allocated. -/
def filterNestedColsH (st : Store) (includedCols : Option (List String))
    (childNames : List String) (a : Nat) : Store × Nat :=
  match includedCols with
  | none => (st, a)
  | some l =>
    if l.isEmpty then (st, a)
    else
      let filtered := (rowFields st a).filter
        (fun kv => l.contains kv.1 || childNames.contains kv.1)
      alloc st (.objH filtered)

/-- The matching child row addresses (with their indices):
`childRow[remoteCol] === localValue` with reference equality for
object/array cells. -/
def jsMatchesH (st : Store) (rowAddrs : List Nat) (remoteCol : String)
    (localValue : Option HVal) : List (Nat × Nat) :=
  rowAddrs.enum.filter
    (fun ia => jsStrictEqHOpt (hGet (rowFields st ia.2) remoteCol) localValue)

/-- The recursive call in the heap model: child table id, child row
address, child row index, parent table id, depth, visited set and
store in — visited set, store and built-object address out. -/
abbrev RecurseHFn := String → Nat → Nat → String → Nat → Visited → Store → Option (Visited × Store × Nat)

/-- Build each match in order, filter with the edge's column filter,
deduplicate by serialized equality (read back from the final store). -/
def buildChildListH (fuel : Nat) (recurseH : RecurseHFn) (ctid ptid : String) (dep : Nat)
    (ic : Option (List String)) (cn : List String) (ms : List (Nat × Nat))
    (visited : Visited) (st : Store) : Option (Visited × Store × List HVal) :=
  match ms.foldlM
      (fun (acc : Visited × Store × List HVal) im =>
        match recurseH ctid im.2 im.1 ptid dep acc.1 acc.2.1 with
        | some (vis', st', nodeAddr) =>
          let f := filterNestedColsH st' ic cn nodeAddr
          some (vis', f.1, acc.2.2 ++ [HVal.ref f.2])
        | none => none)
      (visited, st, []) with
  | some (vis, st', nodes) => some (vis, st', uniqByKeyH fuel st' nodes)
  | none => none

/-- The pivot-join loop in the heap model: the per-element child data
is written into the element's object through its reference — the
array itself and the projected row object are not written at all. -/
def pivotJoinLoopH (fuel : Nat) (recurseH : RecurseHFn) (ctid ptid : String) (dep : Nat)
    (ic : Option (List String)) (cn : List String) (childRowAddrs : List Nat)
    (remoteCol : String) (siblingCols : List (String × String)) (rowAddr : Nat)
    (propName : String) (card : Cardinality) (elems : List HVal) :
    List String → Nat → Visited → Store → Option (Visited × Store)
  | [], _, vis, st => some (vis, st)
  | idx :: rest, i, vis, st =>
    if i < elems.length then
      match mapGet siblingCols idx with
      | none =>
        pivotJoinLoopH fuel recurseH ctid ptid dep ic cn childRowAddrs remoteCol
          siblingCols rowAddr propName card elems rest (i + 1) vis st
      | some colName =>
        if hHas (rowFields st rowAddr) colName then
          let localValue := (hGet (rowFields st rowAddr) colName).getD .null
          let ms := jsMatchesH st childRowAddrs remoteCol (some localValue)
          if ms.isEmpty then
            pivotJoinLoopH fuel recurseH ctid ptid dep ic cn childRowAddrs remoteCol
              siblingCols rowAddr propName card elems rest (i + 1) vis st
          else
            match buildChildListH fuel recurseH ctid ptid dep ic cn ms vis st with
            | none => none
            | some (vis', st', nested) =>
              let attached : Store × HVal := match card with
                | .oneToOne => (st', nested.headD .null)
                | .oneToMany =>
                  let al := alloc st' (.arrH nested)
                  (al.1, .ref al.2)
              let st3 := match elems.getD i .null with
                | .ref b =>
                  (match attached.1.get? b with
                   | some (.objH f) => storeSet attached.1 b (.objH (hSet f propName attached.2))
                   | _ => attached.1)
                | _ => attached.1
              pivotJoinLoopH fuel recurseH ctid ptid dep ic cn childRowAddrs remoteCol
                siblingCols rowAddr propName card elems rest (i + 1) vis' st3
        else
          pivotJoinLoopH fuel recurseH ctid ptid dep ic cn childRowAddrs remoteCol
            siblingCols rowAddr propName card elems rest (i + 1) vis st
    else some (vis, st)

/-- The standard (non-pivot) attach: write the child data under
`propName` on the projected object, merging with an existing binding
for a one-to-many edge. -/
def stdAttach (fuel : Nat) (st1 : Store) (pa : Nat) (propName : String)
    (card : Cardinality) (nested : List HVal) : Store :=
  if card = .oneToOne then
    storeSet st1 pa (.objH (hSet (rowFields st1 pa) propName (nested.headD .null)))
  else
    match hGet (rowFields st1 pa) propName with
    | some existing =>
      if jsTruthyH existing then
        let arrElems := match existing with
          | .ref a =>
            (match st1.get? a with
             | some (.arrH xs) => xs
             | _ => [existing])
          | v => [v]
        let combined := uniqByKeyH fuel st1 (arrElems ++ nested)
        let al := alloc st1 (.arrH combined)
        storeSet al.1 pa (.objH (hSet (rowFields al.1 pa) propName (.ref al.2)))
      else
        let al := alloc st1 (.arrH nested)
        storeSet al.1 pa (.objH (hSet (rowFields al.1 pa) propName (.ref al.2)))
    | none =>
      let al := alloc st1 (.arrH nested)
      storeSet al.1 pa (.objH (hSet (rowFields al.1 pa) propName (.ref al.2)))

/-- One relationship processed in the heap model; attaches mutate the
projected object (standard path) or the pivot elements (pivot path)
through their references. -/
def processRelH (fuel : Nat) (env : HBuildEnv) (recurseH : RecurseHFn) (tableId : String)
    (rowAddr : Nat) (parentId : Option String) (depth : Nat) (projAddr : Nat)
    (state : Visited × Store) (rel : RelationshipEdge) : Option (Visited × Store) :=
  let visited := state.1
  let st := state.2
  let childTableId := if rel.sourceTableId == tableId then rel.targetTableId else rel.sourceTableId
  let isRecursive := parentId == some childTableId || childTableId == tableId
  if relSkip tableId parentId depth rel then some state
  else
    match lookupHTable env.tables childTableId with
    | none => some state
    | some childTable =>
      let isSource := rel.sourceTableId == tableId
      let localCol := if isSource then rel.sourceColumn else rel.targetColumn
      let remoteCol := if isSource then rel.targetColumn else rel.sourceColumn
      let childNames := childTableNamesH env childTableId
      let propName := rel.propertyName.getD childTable.name
      let card := rel.type.getD .oneToMany
      let dep := if isRecursive then depth + 1 else 0
      match findPivotInfoH env tableId localCol with
      | some (pivot, siblingCols) =>
        match hGet (rowFields st projAddr) pivot.arrayName with
        | some (.ref arrAddr) =>
          match st.get? arrAddr with
          | some (.arrH pivotElems) =>
            let tblCols := ((Option.map (fun t => t.columns) (lookupHTable env.tables tableId))).getD []
            pivotJoinLoopH fuel recurseH childTableId tableId dep rel.includedColumns
              childNames childTable.rowAddrs remoteCol siblingCols rowAddr propName card
              pivotElems (pivotSortedIndices tblCols pivot) 0 visited st
          | _ => some state
        | _ => some state
      | none =>
        let ms := jsMatchesH st childTable.rowAddrs remoteCol
          (hGet (rowFields st rowAddr) localCol)
        if ms.isEmpty then some state
        else
          match buildChildListH fuel recurseH childTableId tableId dep rel.includedColumns
              childNames ms visited st with
          | none => none
          | some (vis', st', nested) =>
            some (vis', stdAttach fuel st' projAddr propName card nested)

/-- `buildNested` in the heap model. -/
def buildNestedH (env : HBuildEnv) :
    Nat → String → Nat → Nat → Option String → Nat → Visited → Store →
    Option (Visited × Store × Nat)
  | 0, _, _, _, _, _, _, _ => none
  | fuel + 1, tableId, rowAddr, rowIdx, parentId, depth, visited, st =>
    let depthKey := tableId ++ ":" ++ toString rowIdx ++ ":" ++ toString depth
    if visited.contains depthKey then
      let pr := projectRowH env st tableId rowAddr
      some (visited, pr.1, pr.2)
    else
      let visited' := depthKey :: visited
      let pr := projectRowH env st tableId rowAddr
      let rels := env.relationships.filter
        (fun r => r.sourceTableId == tableId || r.targetTableId == tableId)
      match rels.foldlM
          (processRelH fuel env
            (fun ctid a i pid dep vis s => buildNestedH env fuel ctid a i (some pid) dep vis s)
            tableId rowAddr parentId depth pr.2)
          (visited', pr.1) with
      | none => none
      | some (vis, st'') => some (vis, st'', pr.2)

/-- The outcome of the heap-model build. -/
inductive HOutcome where
  | errMsg (msg : String)
  | fuelOut
  | doc (a : Nat)

/-- `buildJoinedDocument` in the heap model: the result document is a
freshly allocated object `{ [leadTable.name]: nested }`. -/
def buildJoinedDocumentH (fuel : Nat) (leadTableId : String) (leadRowIndex : Nat)
    (tables : List HTable) (relationships : List RelationshipEdge)
    (columnsFilter : List (String × List String)) (columnSplits : List ColumnSplit)
    (tablePivots : List TablePivot) (st : Store) : Store × HOutcome :=
  match lookupHTable tables leadTableId with
  | none => (st, .errMsg ("Lead table not found: " ++ leadTableId))
  | some leadTable =>
    match leadTable.rowAddrs.get? leadRowIndex with
    | none => (st, .errMsg ("Lead row not found index=" ++ toString leadRowIndex))
    | some rowAddr =>
      let env : HBuildEnv := ⟨tables, relationships, columnsFilter, columnSplits, tablePivots⟩
      match buildNestedH env fuel leadTableId rowAddr leadRowIndex none 0 [] st with
      | none => (st, .fuelOut)
      | some (_, st', a) =>
        let d := alloc st' (.objH [(leadTable.name, .ref a)])
        (d.1, .doc d.2)

-- ── Frame-proof infrastructure ─────────────────────────────────────

theorem storeGet_append_lt (s t : Store) (a : Nat) (h : a < s.length) :
    (s ++ t).get? a = s.get? a := by
  simp [List.get?_eq_getElem?, List.getElem?_append, h]

theorem storeGet_set_ne (s : Store) (o : HObj) (a b : Nat) (h : a ≠ b) :
    (s.set b o).get? a = s.get? a := by
  simp [List.get?_eq_getElem?, List.getElem?_set]
  intro he
  exact absurd he.symm h

theorem storeGet_set_self (s : Store) (o : HObj) (b : Nat) (h : b < s.length) :
    (s.set b o).get? b = some o := by
  simp [List.get?_eq_getElem?, List.getElem?_set, h]

theorem storeSet_length (s : Store) (o : HObj) (b : Nat) :
    (s.set b o).length = s.length := List.length_set ..

theorem alloc_fst_length (s : Store) (o : HObj) :
    (alloc s o).1.length = s.length + 1 := by simp [alloc]

theorem alloc_snd (s : Store) (o : HObj) : (alloc s o).2 = s.length := rfl

theorem alloc_get_fresh (s : Store) (o : HObj) :
    (alloc s o).1.get? s.length = some o := by
  simp [alloc, List.get?_eq_getElem?]

/-- Exact frame: the second store extends the first and agrees with it
on every address the first store has. -/
def storeFrame (s s' : Store) : Prop :=
  s.length ≤ s'.length ∧ ∀ a, a < s.length → s'.get? a = s.get? a

theorem storeFrame_refl (s : Store) : storeFrame s s := ⟨le_refl _, fun _ _ => rfl⟩

theorem storeFrame_trans {s s' s'' : Store} (h1 : storeFrame s s') (h2 : storeFrame s' s'') :
    storeFrame s s'' :=
  ⟨le_trans h1.1 h2.1, fun a ha => (h2.2 a (lt_of_lt_of_le ha h1.1)).trans (h1.2 a ha)⟩

theorem storeFrame_alloc (s : Store) (o : HObj) : storeFrame s (alloc s o).1 :=
  ⟨by simp [alloc], fun a ha => storeGet_append_lt s [o] a ha⟩

theorem storeFrame_append (s : Store) (t : Store) : storeFrame s (s ++ t) :=
  ⟨by simp, fun a ha => storeGet_append_lt s t a ha⟩

/-- Evolution of the store during the relationship loop of one
`buildNestedH` call with entry boundary `B` and projected address
`pa`: the store only grows, and an entry the call started with is
either untouched or is an object at an address at least `B` and
different from `pa` rewritten to another object. -/
def loopEvol (B pa : Nat) (s s' : Store) : Prop :=
  s.length ≤ s'.length ∧
  ∀ a, a < s.length →
    s'.get? a = s.get? a ∨
    (B ≤ a ∧ a ≠ pa ∧ ∃ f f', s.get? a = some (.objH f) ∧ s'.get? a = some (.objH f'))

theorem loopEvol_refl (B pa : Nat) (s : Store) : loopEvol B pa s s :=
  ⟨le_refl _, fun _ _ => Or.inl rfl⟩

theorem loopEvol_of_frame {s s' : Store} (B pa : Nat) (h : storeFrame s s') :
    loopEvol B pa s s' :=
  ⟨h.1, fun a ha => Or.inl (h.2 a ha)⟩

theorem loopEvol_trans {B pa : Nat} {s s' s'' : Store}
    (h1 : loopEvol B pa s s') (h2 : loopEvol B pa s' s'') : loopEvol B pa s s'' := by
  refine ⟨le_trans h1.1 h2.1, fun a ha => ?_⟩
  rcases h1.2 a ha with he1 | ⟨hB, hpa, f, f', hf, hf'⟩
  · rcases h2.2 a (lt_of_lt_of_le ha h1.1) with he2 | ⟨hB, hpa, f, f', hf, hf'⟩
    · exact Or.inl (he2.trans he1)
    · exact Or.inr ⟨hB, hpa, f, f', he1 ▸ hf, hf'⟩
  · rcases h2.2 a (lt_of_lt_of_le ha h1.1) with he2 | ⟨hB2, hpa2, g, g', hg, hg'⟩
    · exact Or.inr ⟨hB, hpa, f, f', hf, he2.trans hf'⟩
    · exact Or.inr ⟨hB, hpa, f, g', hf, hg'⟩

theorem loopEvol_write {B pa : Nat} {s : Store} {b : Nat} {f f' : List (String × HVal)}
    (hB : B ≤ b) (hpa : b ≠ pa) (hob : s.get? b = some (.objH f)) :
    loopEvol B pa s (s.set b (.objH f')) := by
  refine ⟨le_of_eq (storeSet_length s _ b).symm, fun a ha => ?_⟩
  by_cases hab : a = b
  · subst hab
    have hlt : a < s.length := ha
    exact Or.inr ⟨hB, hpa, f, f', hob, storeGet_set_self s _ a hlt⟩
  · exact Or.inl (storeGet_set_ne s _ a b hab)

/-- Frame consequences of `loopEvol`: addresses below `B`, the
projected address, and array entries are all untouched. -/
theorem loopEvol_frame_below {B pa : Nat} {s s' : Store} (h : loopEvol B pa s s')
    (a : Nat) (haB : a < B) (haL : a < s.length) : s'.get? a = s.get? a := by
  rcases h.2 a haL with he | ⟨hB, _, _⟩
  · exact he
  · omega

theorem loopEvol_pa {B pa : Nat} {s s' : Store} (h : loopEvol B pa s s')
    (hpa : pa < s.length) : s'.get? pa = s.get? pa := by
  rcases h.2 pa hpa with he | ⟨_, hne, _⟩
  · exact he
  · exact absurd rfl hne

theorem loopEvol_arr {B pa : Nat} {s s' : Store} (h : loopEvol B pa s s')
    (b : Nat) (es : List HVal) (hb : b < s.length) (harr : s.get? b = some (.arrH es)) :
    s'.get? b = some (.arrH es) := by
  rcases h.2 b hb with he | ⟨_, _, f, f', hf, _⟩
  · exact he.trans harr
  · rw [harr] at hf; cases hf

-- field-list lemmas for the heap model

theorem hGet_cons (k1 k : String) (v1 : HVal) (o : List (String × HVal)) :
    hGet ((k1, v1) :: o) k = if k1 == k then some v1 else hGet o k := by
  unfold hGet
  cases h : k1 == k <;> simp [List.find?, h]

theorem hGet_hSet_self (o : List (String × HVal)) (k : String) (v : HVal) :
    hGet (hSet o k v) k = some v := by
  induction o with
  | nil => simp [hSet, hGet_cons]
  | cons kv rest ih =>
    obtain ⟨k', v'⟩ := kv
    by_cases h : k' = k
    · subst h; simp [hSet, hGet_cons]
    · simp [hSet, hGet_cons, h, ih]

theorem hGet_hSet_ne (o : List (String × HVal)) (k k' : String) (v : HVal) (h : k' ≠ k) :
    hGet (hSet o k' v) k = hGet o k := by
  induction o with
  | nil =>
    show hGet ((k', v) :: []) k = hGet [] k
    rw [hGet_cons]
    simp [h]
  | cons kv rest ih =>
    obtain ⟨k1, v1⟩ := kv
    by_cases h1 : k1 = k'
    · subst h1; simp [hSet, hGet_cons, h]
    · simp [hSet, hGet_cons, h1, ih]

theorem hGet_nil (k : String) : hGet [] k = none := rfl

theorem hGet_filterKeys (p : String → Bool) (o : List (String × HVal)) (k : String) :
    hGet (o.filter (fun kv => p kv.1)) k = if p k then hGet o k else none := by
  induction o with
  | nil => cases hp : p k <;> simp [hGet_nil, hp]
  | cons kv rest ih =>
    obtain ⟨k1, v1⟩ := kv
    by_cases h1 : k1 = k
    · subst h1
      cases hp : p k1 <;> simp [List.filter, hp, hGet_cons, ih]
    · cases hp : p k1 <;> simp [List.filter, hp, hGet_cons, h1, ih]

theorem hGet_hDelete (o : List (String × HVal)) (k' k : String) :
    hGet (hDelete o k') k = if (k != k') = true then hGet o k else none :=
  hGet_filterKeys (fun s => s != k') o k

theorem hGet_foldl_sub {β : Type} (step : List (String × HVal) → β → List (String × HVal))
    (hstep : ∀ o x k v, hGet (step o x) k = some v → hGet o k = some v) :
    ∀ (l : List β) (o : List (String × HVal)) (k : String) (v : HVal),
      hGet (l.foldl step o) k = some v → hGet o k = some v := by
  intro l
  induction l with
  | nil => intro o k v h; exact h
  | cons x xs ih =>
    intro o k v h
    exact hstep o x k v (ih (step o x) k v h)

theorem hGet_hDelete_sub (o : List (String × HVal)) (k' k : String) (v : HVal)
    (h : hGet (hDelete o k') k = some v) : hGet o k = some v := by
  rw [hGet_hDelete] at h
  by_cases hb : (k != k') = true
  · rw [if_pos hb] at h; exact h
  · rw [if_neg hb] at h; cases h

theorem uniqByKeyH_mem_aux (fuel : Nat) (st : Store) (l : List HVal) :
    ∀ (acc : List HVal × List (Option Val)) (v : HVal),
      v ∈ (l.foldl
        (fun (acc : List HVal × List (Option Val)) v =>
          let k := readHVal fuel st v
          if acc.2.any (fun w => keyBeq w k) then acc
          else (acc.1 ++ [v], acc.2 ++ [k])) acc).1 →
      v ∈ acc.1 ∨ v ∈ l := by
  induction l with
  | nil => intro acc v hv; exact Or.inl hv
  | cons w ws ih =>
    intro acc v hv
    rw [List.foldl_cons] at hv
    rcases ih _ v hv with h | h
    · by_cases hw : (acc.2.any (fun u => keyBeq u (readHVal fuel st w))) = true
      · simp only [hw, if_true] at h; exact Or.inl h
      · simp only [hw, Bool.false_eq_true, if_false] at h
        simp only [List.mem_append, List.mem_singleton] at h
        rcases h with h | h
        · exact Or.inl h
        · exact Or.inr (by simp [h])
    · exact Or.inr (by simp [h])

theorem uniqByKeyH_mem (fuel : Nat) (st : Store) (l : List HVal) (v : HVal)
    (hv : v ∈ uniqByKeyH fuel st l) : v ∈ l := by
  rcases uniqByKeyH_mem_aux fuel st l ([], []) v hv with h | h
  · simp at h
  · exact h

theorem findPivotInfoH_mem (env : HBuildEnv) (tblId col : String)
    (pivot : TablePivot) (sc : List (String × String))
    (h : findPivotInfoH env tblId col = some (pivot, sc)) :
    pivot ∈ env.tablePivots ∧ (pivot.tableId == tblId) = true := by
  unfold findPivotInfoH at h
  cases hlt : lookupHTable env.tables tblId with
  | none => rw [hlt] at h; cases h
  | some tbl =>
    rw [hlt] at h
    obtain ⟨p, hmem, hp⟩ := List.exists_of_findSome?_eq_some h
    by_cases hm : (p.tableId == tblId) = true
    · rw [if_pos hm] at hp
      cases hg : groupMatchContaining tbl.columns p.groups col with
      | none => rw [hg] at hp; cases hp
      | some matched =>
        rw [hg] at hp
        simp only [Option.some_inj, Prod.mk.injEq] at hp
        exact ⟨hp.1 ▸ hmem, hp.1 ▸ hm⟩
    · rw [if_neg hm] at hp; cases hp

theorem hval_getD_mem (l : List HVal) (i : Nat) (h : i < l.length) :
    l.getD i .null ∈ l := by
  rw [List.getD_eq_getElem l _ h]
  exact List.getElem_mem h

theorem applySplitStepH_append (tid : String) (acc : Store × List (String × HVal))
    (sp : ColumnSplit) : ∃ t, (applySplitStepH tid acc sp).1 = acc.1 ++ t := by
  unfold applySplitStepH
  by_cases h : (sp.tableId == tid) = true
  · rw [if_pos h]
    cases hg : hGet acc.2 sp.column with
    | none => exact ⟨[], by simp⟩
    | some v =>
      cases v with
      | str s => exact ⟨_, rfl⟩
      | num n => exact ⟨[], by simp⟩
      | bool b => exact ⟨[], by simp⟩
      | null => exact ⟨[], by simp⟩
      | ref a => exact ⟨[], by simp⟩
  · rw [if_neg h]; exact ⟨[], by simp⟩

theorem applySplitsH_append (splits : List ColumnSplit) :
    ∀ (st : Store) (row : List (String × HVal)) (tid : String),
      ∃ t, (applySplitsH st row splits tid).1 = st ++ t := by
  induction splits with
  | nil => intro st row tid; exact ⟨[], by simp [applySplitsH]⟩
  | cons sp rest ih =>
    intro st row tid
    have hstep : applySplitsH st row (sp :: rest) tid
        = applySplitsH (applySplitStepH tid (st, row) sp).1
            (applySplitStepH tid (st, row) sp).2 rest tid := rfl
    obtain ⟨t1, ht1⟩ := applySplitStepH_append tid (st, row) sp
    obtain ⟨t2, ht2⟩ := ih (applySplitStepH tid (st, row) sp).1
      (applySplitStepH tid (st, row) sp).2 tid
    exact ⟨t1 ++ t2, by rw [hstep, ht2, ht1, List.append_assoc]⟩

/-- A field binding is a "fresh array binding" above boundary `B`: if
it is a reference, the referent is fresh, and if the referent is an
array, all its reference elements are fresh too. -/
def bindOK (B : Nat) (st : Store) (F : List (String × HVal)) (k : String) : Prop :=
  ∀ b, hGet F k = some (.ref b) → B ≤ b ∧ b < st.length ∧
    ∀ es, st.get? b = some (.arrH es) → ∀ c, HVal.ref c ∈ es → B ≤ c ∧ c < st.length

theorem bindOK_append (B : Nat) (st : Store) (t : Store) (F : List (String × HVal))
    (k : String) (h : bindOK B st F k) : bindOK B (st ++ t) F k := by
  intro b hb
  obtain ⟨h1, h2, h3⟩ := h b hb
  refine ⟨h1, by simp; omega, fun es hes c hc => ?_⟩
  rw [storeGet_append_lt st t b h2] at hes
  obtain ⟨h4, h5⟩ := h3 es hes c hc
  exact ⟨h4, by simp; omega⟩


theorem pivotElemFold_spec (out : List (String × HVal))
    (groupMaps : List (PivotGroup × List (String × String))) :
    ∀ (l : List String) (acc : Store × List HVal),
      (∃ t, (l.foldl (pivotElemStep out groupMaps) acc).1 = acc.1 ++ t)
      ∧ (∀ v ∈ (l.foldl (pivotElemStep out groupMaps) acc).2,
          v ∈ acc.2 ∨ ∃ c, v = HVal.ref c ∧ acc.1.length ≤ c
            ∧ c < (l.foldl (pivotElemStep out groupMaps) acc).1.length) := by
  intro l
  induction l with
  | nil => intro acc; exact ⟨⟨[], by simp⟩, fun v hv => Or.inl hv⟩
  | cons idx rest ih =>
    intro acc
    rw [List.foldl_cons]
    obtain ⟨⟨t, ht⟩, helems⟩ := ih (pivotElemStep out groupMaps acc idx)
    have hstep : ∃ u, (pivotElemStep out groupMaps acc idx).1 = acc.1 ++ u := by
      unfold pivotElemStep
      by_cases hc : pivotElemHasValue out groupMaps idx = true
      · rw [if_pos hc]; exact ⟨_, rfl⟩
      · rw [if_neg hc]; exact ⟨[], by simp⟩
    obtain ⟨u, hu⟩ := hstep
    constructor
    · exact ⟨u ++ t, by rw [ht, hu, List.append_assoc]⟩
    · intro v hv
      rcases helems v hv with h | ⟨c, hc, hc1, hc2⟩
      · unfold pivotElemStep at h
        by_cases hcond : pivotElemHasValue out groupMaps idx = true
        · rw [if_pos hcond] at h
          simp only [List.mem_append, List.mem_singleton] at h
          rcases h with h | h
          · exact Or.inl h
          · refine Or.inr ⟨acc.1.length, h, le_refl _, ?_⟩
            have hlen : (pivotElemStep out groupMaps acc idx).1.length = acc.1.length + 1 := by
              unfold pivotElemStep
              rw [if_pos hcond]
              simp [alloc]
            rw [ht]
            simp only [List.length_append, hlen]
            omega
        · rw [if_neg hcond] at h
          exact Or.inl h
      · refine Or.inr ⟨c, hc, ?_, hc2⟩
        rw [hu] at hc1
        simp at hc1
        omega

theorem applyOnePivotH_spec (st : Store) (out : List (String × HVal))
    (pivot : TablePivot) (cols : List String) (st' : Store) (out' : List (String × HVal))
    (h : applyOnePivotH st out pivot cols = (st', out')) :
    (∃ t, st' = st ++ t)
    ∧ (∀ b, hGet out' pivot.arrayName = some (.ref b) →
        st.length ≤ b ∧ b < st'.length ∧
        ∀ es, st'.get? b = some (.arrH es) →
          ∀ c, HVal.ref c ∈ es → st.length ≤ c ∧ c < st'.length)
    ∧ (∀ k v, k ≠ pivot.arrayName → hGet out' k = some v → hGet out k = some v) := by
  unfold applyOnePivotH at h
  obtain ⟨hst, hout⟩ := Prod.mk.injEq .. ▸ h
  set groupMaps := pivot.groups.map (fun g => (g, matchGroupColumns cols g.pattern)) with hgm
  set sa := (pivotSortedIndices cols pivot).foldl (pivotElemStep out groupMaps) (st, []) with hsa
  obtain ⟨⟨t, ht⟩, helems⟩ := pivotElemFold_spec out groupMaps (pivotSortedIndices cols pivot) (st, [])
  rw [← hsa] at ht helems
  refine ⟨⟨t ++ [.arrH sa.2], by rw [← hst]; simp [alloc]; rw [ht]; simp⟩, ?_, ?_⟩
  · intro b hb
    rw [← hout, hGet_hSet_self] at hb
    have hbv : b = sa.1.length := by
      have := Option.some.inj hb
      cases this
      rfl
    subst hbv
    have hstl : st.length ≤ sa.1.length := by rw [ht]; simp
    refine ⟨hstl, by rw [← hst]; simp [alloc], fun es hes c hc => ?_⟩
    have hfresh : st'.get? sa.1.length = some (.arrH sa.2) := by
      rw [← hst]
      exact alloc_get_fresh sa.1 (.arrH sa.2)
    rw [hfresh] at hes
    have hesv : es = sa.2 := by
      have := Option.some.inj hes
      cases this
      rfl
    subst hesv
    rcases helems _ hc with habs | ⟨c', hc', h1, h2⟩
    · simp at habs
    · cases hc'
      refine ⟨h1, ?_⟩
      rw [← hst]
      simp [alloc]
      omega
  · intro k v hk hv
    rw [← hout, hGet_hSet_ne _ _ _ _ (fun hc => hk hc.symm)] at hv
    refine hGet_foldl_sub _ ?_ groupMaps out k v hv
    intro o x k' v' h'
    exact hGet_foldl_sub _ (fun o' y k'' v'' h'' => hGet_hDelete_sub o' y.2 k'' v'' h'') x.2 o k' v' h'

theorem bindOK_of_onePivot (B : Nat) (st : Store) (out : List (String × HVal))
    (pivot : TablePivot) (cols : List String) (st' : Store) (out' : List (String × HVal))
    (hB : B ≤ st.length) (h : applyOnePivotH st out pivot cols = (st', out')) :
    bindOK B st' out' pivot.arrayName := by
  obtain ⟨_, hbind, _⟩ := applyOnePivotH_spec st out pivot cols st' out' h
  intro b hb
  obtain ⟨h1, h2, h3⟩ := hbind b hb
  exact ⟨le_trans hB h1, h2, fun es hes c hc =>
    ⟨le_trans hB (h3 es hes c hc).1, (h3 es hes c hc).2⟩⟩

theorem bindOK_pres_onePivot (B : Nat) (st : Store) (out : List (String × HVal))
    (pivot : TablePivot) (cols : List String) (st' : Store) (out' : List (String × HVal))
    (k : String) (hB : B ≤ st.length) (h : applyOnePivotH st out pivot cols = (st', out'))
    (hk : bindOK B st out k) : bindOK B st' out' k := by
  by_cases hkp : k = pivot.arrayName
  · subst hkp
    exact bindOK_of_onePivot B st out pivot cols st' out' hB h
  · obtain ⟨⟨t, ht⟩, _, htrans⟩ := applyOnePivotH_spec st out pivot cols st' out' h
    intro b hb
    have hb' := htrans k (.ref b) hkp hb
    subst ht
    exact bindOK_append B st t out k hk b hb'

theorem applyPivotsH_spec (tid : String) (cols : List String) (B : Nat) :
    ∀ (pivots : List TablePivot) (st : Store) (out : List (String × HVal)),
      B ≤ st.length →
      (∃ t, (applyPivotsH st out pivots tid cols).1 = st ++ t)
      ∧ (∀ p ∈ pivots, (p.tableId == tid) = true →
          bindOK B (applyPivotsH st out pivots tid cols).1
            (applyPivotsH st out pivots tid cols).2 p.arrayName)
      ∧ (∀ k, bindOK B st out k →
          bindOK B (applyPivotsH st out pivots tid cols).1
            (applyPivotsH st out pivots tid cols).2 k) := by
  intro pivots
  induction pivots with
  | nil =>
    intro st out _
    exact ⟨⟨[], by simp [applyPivotsH]⟩, fun p hp => absurd hp (by simp), fun k hk => hk⟩
  | cons q rest ih =>
    intro st out hB
    by_cases hq : (q.tableId == tid) = true
    · have hstep : applyPivotsH st out (q :: rest) tid cols
          = applyPivotsH (applyOnePivotH st out q cols).1 (applyOnePivotH st out q cols).2
              rest tid cols := by
        show (q :: rest).foldl _ (st, out) = _
        rw [List.foldl_cons]
        simp [hq, applyPivotsH]
      obtain ⟨⟨t1, ht1⟩, _, _⟩ := applyOnePivotH_spec st out q cols
        (applyOnePivotH st out q cols).1 (applyOnePivotH st out q cols).2 rfl
      have hB1 : B ≤ (applyOnePivotH st out q cols).1.length := by
        rw [ht1]; simp; omega
      obtain ⟨⟨t2, ht2⟩, hmatch, hpres⟩ := ih (applyOnePivotH st out q cols).1
        (applyOnePivotH st out q cols).2 hB1
      refine ⟨⟨t1 ++ t2, ?_⟩, ?_, ?_⟩
      · rw [hstep, ht2, ht1, List.append_assoc]
      · intro p hp hptid
        rcases List.mem_cons.mp hp with hpq | hpr
        · subst hpq
          rw [hstep]
          refine hpres p.arrayName ?_
          exact bindOK_of_onePivot B st out p cols _ _ hB rfl
        · rw [hstep]
          exact hmatch p hpr hptid
      · intro k hk
        rw [hstep]
        refine hpres k ?_
        exact bindOK_pres_onePivot B st out q cols _ _ k hB rfl hk
    · have hstep : applyPivotsH st out (q :: rest) tid cols
          = applyPivotsH st out rest tid cols := by
        show (q :: rest).foldl _ (st, out) = _
        rw [List.foldl_cons]
        simp [hq, applyPivotsH]
      obtain ⟨happ, hmatch, hpres⟩ := ih st out hB
      refine ⟨hstep ▸ happ, ?_, hstep ▸ hpres⟩
      intro p hp hptid
      rcases List.mem_cons.mp hp with hpq | hpr
      · subst hpq; exact absurd hptid hq
      · exact hstep ▸ hmatch p hpr hptid

/-- A pivot-key binding invariant relative to the call boundary `B`
and the projected address `pa`: the bound array and all its element
objects are fresh (at or above `B`) and distinct from `pa`. -/
def pivBindOK (B pa : Nat) (st : Store) (F : List (String × HVal)) (k : String) : Prop :=
  ∀ b, hGet F k = some (.ref b) → B ≤ b ∧ b < st.length ∧ b ≠ pa ∧
    ∀ es, st.get? b = some (.arrH es) → ∀ c, HVal.ref c ∈ es →
      B ≤ c ∧ c < st.length ∧ c ≠ pa

theorem projectRowH_spec (env : HBuildEnv) (st : Store) (tid : String) (rowAddr : Nat) :
    storeFrame st (projectRowH env st tid rowAddr).1
    ∧ st.length ≤ (projectRowH env st tid rowAddr).2
    ∧ (projectRowH env st tid rowAddr).2 < (projectRowH env st tid rowAddr).1.length
    ∧ ∃ F, (projectRowH env st tid rowAddr).1.get? (projectRowH env st tid rowAddr).2
        = some (.objH F)
      ∧ ∀ p ∈ env.tablePivots, (p.tableId == tid) = true →
          pivBindOK st.length (projectRowH env st tid rowAddr).2
            (projectRowH env st tid rowAddr).1 F p.arrayName := by
  set OUT := projectFilterFields env tid (rowFields st rowAddr) with hOUT
  set COLS := projectAllColumns env tid (rowFields st rowAddr) with hCOLS
  set s := applyTransformsH st OUT tid COLS env.columnSplits env.tablePivots with hs
  have hdef : projectRowH env st tid rowAddr = alloc s.1 (.objH s.2) := rfl
  obtain ⟨t0, ht0⟩ := applySplitsH_append env.columnSplits st OUT tid
  have hB0 : st.length ≤ (applySplitsH st OUT env.columnSplits tid).1.length := by
    rw [ht0]; simp
  obtain ⟨⟨t1, ht1⟩, hmatch, _⟩ := applyPivotsH_spec tid COLS st.length env.tablePivots
    (applySplitsH st OUT env.columnSplits tid).1
    (applySplitsH st OUT env.columnSplits tid).2 hB0
  have hs1 : s.1 = st ++ (t0 ++ t1) := by
    rw [hs]
    show (applyPivotsH (applySplitsH st OUT env.columnSplits tid).1
      (applySplitsH st OUT env.columnSplits tid).2 env.tablePivots tid COLS).1 = _
    rw [ht1, ht0, List.append_assoc]
  have hfr : storeFrame st s.1 := by rw [hs1]; exact storeFrame_append st _
  rw [hdef]
  refine ⟨storeFrame_trans hfr (storeFrame_alloc s.1 _), ?_, by simp [alloc], s.2, ?_, ?_⟩
  · show st.length ≤ s.1.length
    exact hfr.1
  · exact alloc_get_fresh s.1 _
  · intro p hp hptid
    have hbp : bindOK st.length s.1 s.2 p.arrayName := by
      rw [hs]
      show bindOK st.length
        (applyPivotsH (applySplitsH st OUT env.columnSplits tid).1
          (applySplitsH st OUT env.columnSplits tid).2 env.tablePivots tid COLS).1
        (applyPivotsH (applySplitsH st OUT env.columnSplits tid).1
          (applySplitsH st OUT env.columnSplits tid).2 env.tablePivots tid COLS).2 p.arrayName
      exact hmatch p hp hptid
    intro b hb
    obtain ⟨h1, h2, h3⟩ := hbp b hb
    have hpa : (alloc s.1 (HObj.objH s.2)).2 = s.1.length := rfl
    refine ⟨h1, by simp [alloc]; omega, by rw [hpa]; omega, fun es hes c hc => ?_⟩
    rw [show (alloc s.1 (HObj.objH s.2)).1.get? b = s.1.get? b from
      storeGet_append_lt s.1 _ b h2] at hes
    obtain ⟨h4, h5⟩ := h3 es hes c hc
    exact ⟨h4, by simp [alloc]; omega, by rw [hpa]; omega⟩

/-- Evolution of the store during the relationship loop of one call
with entry boundary `B`: the store only grows, and an entry the call
started with is either untouched or is an object at an address at
least `B` rewritten to another object. -/
def relEvol (B : Nat) (s s' : Store) : Prop :=
  s.length ≤ s'.length ∧
  ∀ a, a < s.length →
    s'.get? a = s.get? a ∨
    (B ≤ a ∧ ∃ f f', s.get? a = some (.objH f) ∧ s'.get? a = some (.objH f'))

theorem relEvol_of_loopEvol {B pa : Nat} {s s' : Store} (h : loopEvol B pa s s') :
    relEvol B s s' := by
  refine ⟨h.1, fun a ha => ?_⟩
  rcases h.2 a ha with he | ⟨hB, _, f, f', hf, hf'⟩
  · exact Or.inl he
  · exact Or.inr ⟨hB, f, f', hf, hf'⟩

theorem relEvol_refl (B : Nat) (s : Store) : relEvol B s s :=
  ⟨le_refl _, fun _ _ => Or.inl rfl⟩

theorem relEvol_of_frame {s s' : Store} (B : Nat) (h : storeFrame s s') :
    relEvol B s s' :=
  ⟨h.1, fun a ha => Or.inl (h.2 a ha)⟩

theorem relEvol_trans {B : Nat} {s s' s'' : Store}
    (h1 : relEvol B s s') (h2 : relEvol B s' s'') : relEvol B s s'' := by
  refine ⟨le_trans h1.1 h2.1, fun a ha => ?_⟩
  rcases h1.2 a ha with he1 | ⟨hB, f, f', hf, hf'⟩
  · rcases h2.2 a (lt_of_lt_of_le ha h1.1) with he2 | ⟨hB, f, f', hf, hf'⟩
    · exact Or.inl (he2.trans he1)
    · exact Or.inr ⟨hB, f, f', he1 ▸ hf, hf'⟩
  · rcases h2.2 a (lt_of_lt_of_le ha h1.1) with he2 | ⟨hB2, g, g', hg, hg'⟩
    · exact Or.inr ⟨hB, f, f', hf, he2.trans hf'⟩
    · exact Or.inr ⟨hB, f, g', hf, hg'⟩

theorem relEvol_write {B : Nat} {s : Store} {b : Nat} {f f' : List (String × HVal)}
    (hB : B ≤ b) (hob : s.get? b = some (.objH f)) :
    relEvol B s (s.set b (.objH f')) := by
  refine ⟨le_of_eq (storeSet_length s _ b).symm, fun a ha => ?_⟩
  by_cases hab : a = b
  · subst hab
    exact Or.inr ⟨hB, f, f', hob, storeGet_set_self s _ a ha⟩
  · exact Or.inl (storeGet_set_ne s _ a b hab)

theorem relEvol_frame_below {B : Nat} {s s' : Store} (h : relEvol B s s')
    (a : Nat) (haB : a < B) (haL : a < s.length) : s'.get? a = s.get? a := by
  rcases h.2 a haL with he | ⟨hB, _⟩
  · exact he
  · omega

/-- `filterNestedColsH` only allocates: the store is extended and the
returned address is the child's own or a freshly allocated object. -/
theorem filterNestedColsH_spec (st : Store) (ic : Option (List String)) (cn : List String)
    (a lo : Nat) (f0 : List (String × HVal)) (hlo : lo ≤ a) (hlo2 : lo ≤ st.length)
    (ha : a < st.length) (hobj : st.get? a = some (.objH f0)) :
    storeFrame st (filterNestedColsH st ic cn a).1
    ∧ lo ≤ (filterNestedColsH st ic cn a).2
    ∧ (filterNestedColsH st ic cn a).2 < (filterNestedColsH st ic cn a).1.length
    ∧ ∃ f, (filterNestedColsH st ic cn a).1.get? (filterNestedColsH st ic cn a).2
        = some (.objH f) := by
  cases ic with
  | none => exact ⟨storeFrame_refl st, hlo, ha, f0, hobj⟩
  | some l =>
    simp only [filterNestedColsH]
    by_cases hl : l.isEmpty = true
    · rw [if_pos hl]
      exact ⟨storeFrame_refl st, hlo, ha, f0, hobj⟩
    · rw [if_neg hl]
      refine ⟨storeFrame_alloc st _, ?_, ?_, _, alloc_get_fresh st _⟩
      · show lo ≤ st.length
        exact hlo2
      · simp [alloc]

/-- The contract of a recursive `buildNestedH` call: the store is
never written below the entry length and the built node is a freshly
allocated object. -/
def NestSpecH (recurseH : RecurseHFn) : Prop :=
  ∀ ctid a i pid dep vis st vis' st' addr,
    recurseH ctid a i pid dep vis st = some (vis', st', addr) →
    storeFrame st st' ∧ st.length ≤ addr ∧ addr < st'.length
    ∧ ∃ F, st'.get? addr = some (.objH F)

theorem buildChildFoldH_spec (recurseH : RecurseHFn) (hN : NestSpecH recurseH)
    (ctid ptid : String) (dep : Nat) (ic : Option (List String)) (cn : List String) :
    ∀ (ms : List (Nat × Nat)) (start out : Visited × Store × List HVal),
      ms.foldlM
        (fun (acc : Visited × Store × List HVal) im =>
          match recurseH ctid im.2 im.1 ptid dep acc.1 acc.2.1 with
          | some (vis', st', nodeAddr) =>
            let f := filterNestedColsH st' ic cn nodeAddr
            some (vis', f.1, acc.2.2 ++ [HVal.ref f.2])
          | none => none) start = some out →
      storeFrame start.2.1 out.2.1
      ∧ ∀ v ∈ out.2.2, v ∈ start.2.2
          ∨ ∃ c, v = HVal.ref c ∧ start.2.1.length ≤ c ∧ c < out.2.1.length
            ∧ ∃ f, out.2.1.get? c = some (.objH f) := by
  intro ms
  induction ms with
  | nil =>
    intro start out hfold
    have heq : start = out := by simpa using hfold
    subst heq
    exact ⟨storeFrame_refl _, fun v hv => Or.inl hv⟩
  | cons m rest ih =>
    intro start out hfold
    rw [List.foldlM_cons] at hfold
    cases hr : recurseH ctid m.2 m.1 ptid dep start.1 start.2.1 with
    | none => rw [hr] at hfold; simp at hfold
    | some p =>
      obtain ⟨vis', st', nodeAddr⟩ := p
      rw [hr] at hfold
      simp only [Option.bind_some] at hfold
      obtain ⟨hfr, hbnd, haddr, f0, hf0⟩ :=
        hN ctid m.2 m.1 ptid dep start.1 start.2.1 vis' st' nodeAddr hr
      obtain ⟨hffr, hflo, hfhi, f1, hf1⟩ := filterNestedColsH_spec st' ic cn nodeAddr
        start.2.1.length f0 hbnd hfr.1 haddr hf0
      obtain ⟨ihfr, ihmem⟩ := ih _ out hfold
      refine ⟨storeFrame_trans (storeFrame_trans hfr hffr) ihfr, ?_⟩
      intro v hv
      rcases ihmem v hv with h | ⟨c, hc, hc1, hc2, hc3⟩
      · simp only [List.mem_append, List.mem_singleton] at h
        rcases h with h | h
        · exact Or.inl h
        · refine Or.inr ⟨(filterNestedColsH st' ic cn nodeAddr).2, h, hflo,
            lt_of_lt_of_le hfhi ihfr.1, f1, ?_⟩
          exact (ihfr.2 _ hfhi).trans hf1
      · exact Or.inr ⟨c, hc, le_trans (le_trans hfr.1 hffr.1) hc1, hc2, hc3⟩

/-- Frame and freshness for `buildChildListH`: assuming the recursion
contract, the built store only extends the input one and each
deduplicated child node is a reference to a fresh object. -/
theorem buildChildListH_spec (fuel : Nat) (recurseH : RecurseHFn) (hN : NestSpecH recurseH)
    (ctid ptid : String) (dep : Nat) (ic : Option (List String)) (cn : List String)
    (ms : List (Nat × Nat)) (vis : Visited) (st : Store) (vis' : Visited) (st' : Store)
    (nested : List HVal)
    (h : buildChildListH fuel recurseH ctid ptid dep ic cn ms vis st
      = some (vis', st', nested)) :
    storeFrame st st'
    ∧ ∀ v ∈ nested, ∃ c, v = HVal.ref c ∧ st.length ≤ c ∧ c < st'.length
        ∧ ∃ f, st'.get? c = some (.objH f) := by
  unfold buildChildListH at h
  cases hf : ms.foldlM
      (fun (acc : Visited × Store × List HVal) im =>
        match recurseH ctid im.2 im.1 ptid dep acc.1 acc.2.1 with
        | some (vis', st', nodeAddr) =>
          let f := filterNestedColsH st' ic cn nodeAddr
          some (vis', f.1, acc.2.2 ++ [HVal.ref f.2])
        | none => none) (vis, st, []) with
  | none => rw [hf] at h; simp at h
  | some p =>
    obtain ⟨vis2, st2, nodes⟩ := p
    rw [hf] at h
    simp only [Option.some_inj, Prod.mk.injEq] at h
    obtain ⟨hv, hst, hn⟩ := h
    subst hst
    obtain ⟨hfr, hmem⟩ := buildChildFoldH_spec recurseH hN ctid ptid dep ic cn ms
      (vis, st, []) (vis2, st2, nodes) hf
    refine ⟨hfr, ?_⟩
    intro v hv'
    rcases hmem v (uniqByKeyH_mem fuel st2 nodes v (hn ▸ hv')) with h0 | hc
    · simp at h0
    · exact hc

/-- `pivBindOK` survives the relationship loop: the bound array entry
and its element objects are never replaced by non-objects. -/
theorem pivBindOK_evol {B pa : Nat} {st st2 : Store} {F : List (String × HVal)} {k : String}
    (h : loopEvol B pa st st2) (hF : pivBindOK B pa st F k) : pivBindOK B pa st2 F k := by
  intro b hb
  obtain ⟨h1, h2, h3, h4⟩ := hF b hb
  refine ⟨h1, lt_of_lt_of_le h2 h.1, h3, fun es hes c hc => ?_⟩
  have hback : st.get? b = some (.arrH es) := by
    rcases h.2 b h2 with heq | ⟨_, _, f, f', hf, hf'⟩
    · exact heq ▸ hes
    · rw [hf'] at hes; cases hes
  obtain ⟨c1, c2, c3⟩ := h4 es hback c hc
  exact ⟨c1, lt_of_lt_of_le c2 h.1, c3⟩

/-- The pivot-join loop only extends the store and rewrites element
objects in place: every write targets an element reference, which is
at or above the boundary and distinct from the projected address. -/
theorem pivotJoinLoopH_spec (fuel : Nat) (recurseH : RecurseHFn) (hN : NestSpecH recurseH)
    (ctid ptid : String) (dep : Nat) (ic : Option (List String)) (cn : List String)
    (childRowAddrs : List Nat) (remoteCol : String) (siblingCols : List (String × String))
    (rowAddr : Nat) (propName : String) (card : Cardinality) (elems : List HVal)
    (B pa : Nat) (helems : ∀ c, HVal.ref c ∈ elems → B ≤ c ∧ c ≠ pa) :
    ∀ (idxs : List String) (i : Nat) (vis : Visited) (st : Store)
      (vis' : Visited) (st' : Store),
      pivotJoinLoopH fuel recurseH ctid ptid dep ic cn childRowAddrs remoteCol
        siblingCols rowAddr propName card elems idxs i vis st = some (vis', st') →
      loopEvol B pa st st' := by
  intro idxs
  induction idxs with
  | nil =>
    intro i vis st vis' st' h
    simp only [pivotJoinLoopH, Option.some_inj, Prod.mk.injEq] at h
    obtain ⟨_, hst⟩ := h
    subst hst
    exact loopEvol_refl B pa st
  | cons idx rest ih =>
    intro i vis st vis' st' h
    simp only [pivotJoinLoopH] at h
    by_cases hi : i < elems.length
    · rw [if_pos hi] at h
      cases hm : mapGet siblingCols idx with
      | none =>
        simp only [hm] at h
        exact ih (i + 1) vis st vis' st' h
      | some colName =>
        simp only [hm] at h
        by_cases hh : hHas (rowFields st rowAddr) colName = true
        · rw [if_pos hh] at h
          by_cases hempty : (jsMatchesH st childRowAddrs remoteCol
              (some ((hGet (rowFields st rowAddr) colName).getD .null))).isEmpty = true
          · rw [if_pos hempty] at h
            exact ih (i + 1) vis st vis' st' h
          · rw [if_neg hempty] at h
            cases hb : buildChildListH fuel recurseH ctid ptid dep ic cn
                (jsMatchesH st childRowAddrs remoteCol
                  (some ((hGet (rowFields st rowAddr) colName).getD .null))) vis st with
            | none => rw [hb] at h; simp at h
            | some q =>
              obtain ⟨vis1, st1, nested⟩ := q
              rw [hb] at h
              obtain ⟨hfr1, _⟩ := buildChildListH_spec fuel recurseH hN ctid ptid dep
                ic cn _ vis st vis1 st1 nested hb
              cases card with
              | oneToOne =>
                cases hg : elems.getD i .null with
                | ref b =>
                  simp only [hg] at h
                  obtain ⟨hBc, hpac⟩ := helems b
                    (by rw [← hg]; exact hval_getD_mem elems i hi)
                  cases hob : st1.get? b with
                  | none =>
                    simp only [hob] at h
                    exact loopEvol_trans (loopEvol_of_frame B pa hfr1) (ih _ _ _ _ _ h)
                  | some o =>
                    cases o with
                    | objH f =>
                      simp only [hob] at h
                      exact loopEvol_trans (loopEvol_of_frame B pa hfr1)
                        (loopEvol_trans (loopEvol_write hBc hpac hob) (ih _ _ _ _ _ h))
                    | arrH es =>
                      simp only [hob] at h
                      exact loopEvol_trans (loopEvol_of_frame B pa hfr1) (ih _ _ _ _ _ h)
                | str s =>
                  simp only [hg] at h
                  exact loopEvol_trans (loopEvol_of_frame B pa hfr1) (ih _ _ _ _ _ h)
                | num n =>
                  simp only [hg] at h
                  exact loopEvol_trans (loopEvol_of_frame B pa hfr1) (ih _ _ _ _ _ h)
                | bool bo =>
                  simp only [hg] at h
                  exact loopEvol_trans (loopEvol_of_frame B pa hfr1) (ih _ _ _ _ _ h)
                | null =>
                  simp only [hg] at h
                  exact loopEvol_trans (loopEvol_of_frame B pa hfr1) (ih _ _ _ _ _ h)
              | oneToMany =>
                have hfr2 : storeFrame st (alloc st1 (.arrH nested)).1 :=
                  storeFrame_trans hfr1 (storeFrame_alloc st1 _)
                cases hg : elems.getD i .null with
                | ref b =>
                  simp only [hg] at h
                  obtain ⟨hBc, hpac⟩ := helems b
                    (by rw [← hg]; exact hval_getD_mem elems i hi)
                  cases hob : (alloc st1 (.arrH nested)).1.get? b with
                  | none =>
                    simp only [hob] at h
                    exact loopEvol_trans (loopEvol_of_frame B pa hfr2) (ih _ _ _ _ _ h)
                  | some o =>
                    cases o with
                    | objH f =>
                      simp only [hob] at h
                      exact loopEvol_trans (loopEvol_of_frame B pa hfr2)
                        (loopEvol_trans (loopEvol_write hBc hpac hob) (ih _ _ _ _ _ h))
                    | arrH es =>
                      simp only [hob] at h
                      exact loopEvol_trans (loopEvol_of_frame B pa hfr2) (ih _ _ _ _ _ h)
                | str s =>
                  simp only [hg] at h
                  exact loopEvol_trans (loopEvol_of_frame B pa hfr2) (ih _ _ _ _ _ h)
                | num n =>
                  simp only [hg] at h
                  exact loopEvol_trans (loopEvol_of_frame B pa hfr2) (ih _ _ _ _ _ h)
                | bool bo =>
                  simp only [hg] at h
                  exact loopEvol_trans (loopEvol_of_frame B pa hfr2) (ih _ _ _ _ _ h)
                | null =>
                  simp only [hg] at h
                  exact loopEvol_trans (loopEvol_of_frame B pa hfr2) (ih _ _ _ _ _ h)
        · rw [if_neg hh] at h
          exact ih (i + 1) vis st vis' st' h
    · rw [if_neg hi] at h
      simp only [Option.some_inj, Prod.mk.injEq] at h
      obtain ⟨_, hst⟩ := h
      subst hst
      exact loopEvol_refl B pa st

/-- The per-call invariant threaded through the relationship loop:
the projected object lives at `pa`, at or above the boundary, and its
matching pivot-array bindings are fresh. -/
def callInv (env : HBuildEnv) (tid : String) (B pa : Nat) (st : Store) : Prop :=
  B ≤ pa ∧ pa < st.length ∧
  ∃ F, st.get? pa = some (.objH F) ∧
    ∀ p ∈ env.tablePivots, (p.tableId == tid) = true →
      pivBindOK B pa st F p.arrayName

/-- A value safe to bind under a pivot-array key: if it is a
reference, the referent is fresh and distinct from the projected
object, and so are the elements of the referenced array, if any. -/
def attachOK (B pa : Nat) (st : Store) (v : HVal) : Prop :=
  ∀ c, v = HVal.ref c → B ≤ c ∧ c < st.length ∧ c ≠ pa ∧
    ∀ es, st.get? c = some (.arrH es) → ∀ d, HVal.ref d ∈ es →
      B ≤ d ∧ d < st.length ∧ d ≠ pa

theorem attachOK_alloc (B pa : Nat) (st1 : Store) (l : List HVal)
    (hB : B ≤ st1.length) (hpa : pa < st1.length)
    (hl : ∀ d, HVal.ref d ∈ l → B ≤ d ∧ d < st1.length ∧ d ≠ pa) :
    attachOK B pa (alloc st1 (.arrH l)).1 (.ref (alloc st1 (.arrH l)).2) := by
  intro c hc
  injection hc with hcv
  have hcv' : c = st1.length := hcv.symm
  subst hcv'
  refine ⟨hB, by simp [alloc], by omega, fun es hes d hd => ?_⟩
  have hes' : some (HObj.arrH l) = some (HObj.arrH es) :=
    (alloc_get_fresh st1 _).symm.trans hes
  injection hes' with hes''
  injection hes'' with hesl
  subst hesl
  obtain ⟨d1, d2, d3⟩ := hl d hd
  refine ⟨d1, ?_, d3⟩
  simp [alloc]
  omega

/-- One standard attach preserves the loop relation and the call
invariant: the write targets the projected object itself, and any
binding that collides with a matching pivot array key is `attachOK`. -/
theorem attach_step (env : HBuildEnv) (tid : String) (B pa : Nat) (st st1 : Store)
    (v : HVal) (propName : String)
    (hinv : callInv env tid B pa st) (hfr : storeFrame st st1)
    (hv : ∀ p ∈ env.tablePivots, (p.tableId == tid) = true → p.arrayName = propName →
      attachOK B pa st1 v) :
    relEvol B st (storeSet st1 pa (.objH (hSet (rowFields st1 pa) propName v)))
    ∧ callInv env tid B pa (storeSet st1 pa (.objH (hSet (rowFields st1 pa) propName v))) := by
  obtain ⟨hBpa, hpalt, F, hpaF, hpiv⟩ := hinv
  have hpa1 : st1.get? pa = some (.objH F) := (hfr.2 pa hpalt).trans hpaF
  have hpalt1 : pa < st1.length := lt_of_lt_of_le hpalt hfr.1
  have hrow : rowFields st1 pa = F := by unfold rowFields; rw [hpa1]
  rw [hrow]
  have hlen : (storeSet st1 pa (.objH (hSet F propName v))).length = st1.length :=
    storeSet_length st1 _ pa
  have hwrite : relEvol B st1 (storeSet st1 pa (.objH (hSet F propName v))) :=
    relEvol_write hBpa hpa1
  refine ⟨relEvol_trans (relEvol_of_frame B hfr) hwrite,
    hBpa, by rw [hlen]; exact hpalt1, hSet F propName v, ?_, ?_⟩
  · exact storeGet_set_self st1 _ pa hpalt1
  · intro p hp hptid b hb
    by_cases hkp : p.arrayName = propName
    · rw [hkp, hGet_hSet_self] at hb
      injection hb with hbv
      obtain ⟨c1, c2, c3, c4⟩ := hv p hp hptid hkp b hbv
      refine ⟨c1, by rw [hlen]; exact c2, c3, fun es hes d hd => ?_⟩
      rw [show (storeSet st1 pa (.objH (hSet F propName v))).get? b = st1.get? b from
        storeGet_set_ne st1 _ b pa c3] at hes
      obtain ⟨d1, d2, d3⟩ := c4 es hes d hd
      exact ⟨d1, by rw [hlen]; exact d2, d3⟩
    · rw [hGet_hSet_ne F p.arrayName propName v (fun hc => hkp hc.symm)] at hb
      obtain ⟨c1, c2, c3, c4⟩ := hpiv p hp hptid b hb
      have hget : (storeSet st1 pa (.objH (hSet F propName v))).get? b = st.get? b := by
        rw [show (storeSet st1 pa (.objH (hSet F propName v))).get? b = st1.get? b from
          storeGet_set_ne st1 _ b pa c3]
        exact hfr.2 b c2
      refine ⟨c1, by rw [hlen]; exact lt_of_lt_of_le c2 hfr.1, c3, fun es hes d hd => ?_⟩
      rw [hget] at hes
      obtain ⟨d1, d2, d3⟩ := c4 es hes d hd
      exact ⟨d1, by rw [hlen]; exact lt_of_lt_of_le d2 hfr.1, d3⟩

/-- The standard attach (`stdAttach`) preserves the loop relation and
the call invariant for every cardinality and existing binding. -/
theorem stdAttach_spec (fuel : Nat) (env : HBuildEnv) (tid : String) (B pa : Nat)
    (st st1 : Store) (propName : String) (card : Cardinality) (nested : List HVal)
    (hinv : callInv env tid B pa st) (hfr : storeFrame st st1)
    (hnested : ∀ v ∈ nested, ∃ c, v = HVal.ref c ∧ st.length ≤ c ∧ c < st1.length
      ∧ ∃ f, st1.get? c = some (.objH f)) :
    relEvol B st (stdAttach fuel st1 pa propName card nested)
    ∧ callInv env tid B pa (stdAttach fuel st1 pa propName card nested) := by
  have hinv' := hinv
  obtain ⟨hBpa, hpalt, F, hpaF, hpiv⟩ := hinv'
  have hBst : B ≤ st.length := by omega
  have hpa1 : st1.get? pa = some (.objH F) := (hfr.2 pa hpalt).trans hpaF
  have hpalt1 : pa < st1.length := lt_of_lt_of_le hpalt hfr.1
  have hB1 : B ≤ st1.length := le_trans hBst hfr.1
  have hrowF : rowFields st1 pa = F := by unfold rowFields; rw [hpa1]
  have hnb : ∀ d, HVal.ref d ∈ nested → B ≤ d ∧ d < st1.length ∧ d ≠ pa := by
    intro d hd
    obtain ⟨c, hceq, h1, h2, _⟩ := hnested _ hd
    injection hceq with hdc
    subst hdc
    exact ⟨le_trans hBst h1, h2, by omega⟩
  unfold stdAttach
  by_cases hcard : card = Cardinality.oneToOne
  · rw [if_pos hcard]
    apply attach_step env tid B pa st st1 _ propName hinv hfr
    intro p hp hptid hkp c hc
    cases nested with
    | nil => cases hc
    | cons x xs =>
      simp only [List.headD_cons] at hc
      obtain ⟨c', hx, h1, h2, f, hf⟩ := hnested x (List.mem_cons_self x xs)
      rw [hx] at hc
      injection hc with hcc
      subst hcc
      refine ⟨le_trans hBst h1, h2, by omega, fun es hes d hd => ?_⟩
      rw [hf] at hes
      simp at hes
  · rw [if_neg hcard]
    cases hex : hGet (rowFields st1 pa) propName with
    | none =>
      simp only [hex]
      apply attach_step env tid B pa st (alloc st1 (.arrH nested)).1 _ propName hinv
        (storeFrame_trans hfr (storeFrame_alloc st1 _))
      intro p hp hptid hkp
      exact attachOK_alloc B pa st1 nested hB1 hpalt1 hnb
    | some existing =>
      have hexF : hGet F propName = some existing := hrowF ▸ hex
      cases existing with
      | ref a =>
        by_cases htr : jsTruthyH (HVal.ref a) = true
        · simp only [hex]
          rw [if_pos htr]
          apply attach_step env tid B pa st _ _ propName hinv
            (storeFrame_trans hfr (storeFrame_alloc st1 _))
          intro p hp hptid hkp
          apply attachOK_alloc B pa st1 _ hB1 hpalt1
          intro d hd
          have hd' := uniqByKeyH_mem fuel st1 _ _ hd
          rcases List.mem_append.mp hd' with hdl | hdr
          · have hpkp : pivBindOK B pa st F propName := hkp ▸ hpiv p hp hptid
            obtain ⟨a1, a2, a3, a4⟩ := hpkp a hexF
            cases hga : st1.get? a with
            | none =>
              simp only [hga] at hdl
              simp at hdl
              subst hdl
              exact ⟨a1, lt_of_lt_of_le a2 hfr.1, a3⟩
            | some o =>
              cases o with
              | objH f =>
                simp only [hga] at hdl
                simp at hdl
                subst hdl
                exact ⟨a1, lt_of_lt_of_le a2 hfr.1, a3⟩
              | arrH xs =>
                simp only [hga] at hdl
                have hsa : st.get? a = some (.arrH xs) := (hfr.2 a a2).symm.trans hga
                obtain ⟨d1, d2, d3⟩ := a4 xs hsa d hdl
                exact ⟨d1, lt_of_lt_of_le d2 hfr.1, d3⟩
          · exact hnb d hdr
        · simp only [hex]
          rw [if_neg htr]
          apply attach_step env tid B pa st _ _ propName hinv
            (storeFrame_trans hfr (storeFrame_alloc st1 _))
          intro p hp hptid hkp
          exact attachOK_alloc B pa st1 nested hB1 hpalt1 hnb
      | str sv =>
        by_cases htr : jsTruthyH (HVal.str sv) = true
        · simp only [hex]
          rw [if_pos htr]
          apply attach_step env tid B pa st _ _ propName hinv
            (storeFrame_trans hfr (storeFrame_alloc st1 _))
          intro p hp hptid hkp
          apply attachOK_alloc B pa st1 _ hB1 hpalt1
          intro d hd
          have hd' := uniqByKeyH_mem fuel st1 _ _ hd
          rcases List.mem_append.mp hd' with hdl | hdr
          · simp at hdl
          · exact hnb d hdr
        · simp only [hex]
          rw [if_neg htr]
          apply attach_step env tid B pa st _ _ propName hinv
            (storeFrame_trans hfr (storeFrame_alloc st1 _))
          intro p hp hptid hkp
          exact attachOK_alloc B pa st1 nested hB1 hpalt1 hnb
      | num nv =>
        by_cases htr : jsTruthyH (HVal.num nv) = true
        · simp only [hex]
          rw [if_pos htr]
          apply attach_step env tid B pa st _ _ propName hinv
            (storeFrame_trans hfr (storeFrame_alloc st1 _))
          intro p hp hptid hkp
          apply attachOK_alloc B pa st1 _ hB1 hpalt1
          intro d hd
          have hd' := uniqByKeyH_mem fuel st1 _ _ hd
          rcases List.mem_append.mp hd' with hdl | hdr
          · simp at hdl
          · exact hnb d hdr
        · simp only [hex]
          rw [if_neg htr]
          apply attach_step env tid B pa st _ _ propName hinv
            (storeFrame_trans hfr (storeFrame_alloc st1 _))
          intro p hp hptid hkp
          exact attachOK_alloc B pa st1 nested hB1 hpalt1 hnb
      | bool bv =>
        by_cases htr : jsTruthyH (HVal.bool bv) = true
        · simp only [hex]
          rw [if_pos htr]
          apply attach_step env tid B pa st _ _ propName hinv
            (storeFrame_trans hfr (storeFrame_alloc st1 _))
          intro p hp hptid hkp
          apply attachOK_alloc B pa st1 _ hB1 hpalt1
          intro d hd
          have hd' := uniqByKeyH_mem fuel st1 _ _ hd
          rcases List.mem_append.mp hd' with hdl | hdr
          · simp at hdl
          · exact hnb d hdr
        · simp only [hex]
          rw [if_neg htr]
          apply attach_step env tid B pa st _ _ propName hinv
            (storeFrame_trans hfr (storeFrame_alloc st1 _))
          intro p hp hptid hkp
          exact attachOK_alloc B pa st1 nested hB1 hpalt1 hnb
      | null =>
        by_cases htr : jsTruthyH HVal.null = true
        · simp only [hex]
          rw [if_pos htr]
          apply attach_step env tid B pa st _ _ propName hinv
            (storeFrame_trans hfr (storeFrame_alloc st1 _))
          intro p hp hptid hkp
          apply attachOK_alloc B pa st1 _ hB1 hpalt1
          intro d hd
          have hd' := uniqByKeyH_mem fuel st1 _ _ hd
          rcases List.mem_append.mp hd' with hdl | hdr
          · simp at hdl
          · exact hnb d hdr
        · simp only [hex]
          rw [if_neg htr]
          apply attach_step env tid B pa st _ _ propName hinv
            (storeFrame_trans hfr (storeFrame_alloc st1 _))
          intro p hp hptid hkp
          exact attachOK_alloc B pa st1 nested hB1 hpalt1 hnb

/-- One relationship step preserves the loop relation and the call
invariant: the pivot path writes only through fresh element
references, the standard path writes only the projected object. -/
theorem processRelH_spec (fuel : Nat) (env : HBuildEnv) (recurseH : RecurseHFn)
    (hN : NestSpecH recurseH) (tid : String) (rowAddr : Nat) (pid : Option String)
    (depth : Nat) (pa B : Nat) (state out : Visited × Store) (rel : RelationshipEdge)
    (h : processRelH fuel env recurseH tid rowAddr pid depth pa state rel = some out)
    (hinv : callInv env tid B pa state.2) :
    relEvol B state.2 out.2 ∧ callInv env tid B pa out.2 := by
  have hrefl : state = out → relEvol B state.2 out.2 ∧ callInv env tid B pa out.2 := by
    intro he; rw [← he]; exact ⟨relEvol_refl B state.2, hinv⟩
  simp only [processRelH] at h
  set ctid := if (rel.sourceTableId == tid) = true then rel.targetTableId
    else rel.sourceTableId with hCT
  set localCol := if (rel.sourceTableId == tid) = true then rel.sourceColumn
    else rel.targetColumn with hLC
  set remoteCol := if (rel.sourceTableId == tid) = true then rel.targetColumn
    else rel.sourceColumn with hRC
  set dep := if (pid == some ctid || ctid == tid) = true then depth + 1 else 0 with hDep
  by_cases hskip : relSkip tid pid depth rel = true
  · rw [if_pos hskip] at h
    exact hrefl (Option.some_inj.mp h)
  · rw [if_neg hskip] at h
    cases hlk : lookupHTable env.tables ctid with
    | none =>
      simp only [hlk] at h
      exact hrefl (Option.some_inj.mp h)
    | some childTable =>
      simp only [hlk] at h
      set propName := rel.propertyName.getD childTable.name with hPN
      set card := rel.type.getD Cardinality.oneToMany with hCD
      cases hfp : findPivotInfoH env tid localCol with
      | some pinfo =>
        obtain ⟨pivot, siblingCols⟩ := pinfo
        simp only [hfp] at h
        cases hga : hGet (rowFields state.2 pa) pivot.arrayName with
        | none =>
          simp only [hga] at h
          exact hrefl (Option.some_inj.mp h)
        | some w =>
          cases w with
          | str s =>
            simp only [hga] at h
            exact hrefl (Option.some_inj.mp h)
          | num n =>
            simp only [hga] at h
            exact hrefl (Option.some_inj.mp h)
          | bool b =>
            simp only [hga] at h
            exact hrefl (Option.some_inj.mp h)
          | null =>
            simp only [hga] at h
            exact hrefl (Option.some_inj.mp h)
          | ref arrAddr =>
            simp only [hga] at h
            cases harr : state.2.get? arrAddr with
            | none =>
              simp only [harr] at h
              exact hrefl (Option.some_inj.mp h)
            | some o =>
              cases o with
              | objH f =>
                simp only [harr] at h
                exact hrefl (Option.some_inj.mp h)
              | arrH pivotElems =>
                simp only [harr] at h
                obtain ⟨hBpa, hpalt, F, hpaF, hpiv⟩ := hinv
                have hrowF : rowFields state.2 pa = F := by unfold rowFields; rw [hpaF]
                rw [hrowF] at hga
                obtain ⟨hmem, htid⟩ :=
                  findPivotInfoH_mem env tid localCol pivot siblingCols hfp
                obtain ⟨a1, a2, a3, a4⟩ := hpiv pivot hmem htid arrAddr hga
                have helems : ∀ c, HVal.ref c ∈ pivotElems → B ≤ c ∧ c ≠ pa := by
                  intro c hc
                  obtain ⟨c1, _, c3⟩ := a4 pivotElems harr c hc
                  exact ⟨c1, c3⟩
                have hloop := pivotJoinLoopH_spec fuel recurseH hN ctid tid dep
                  rel.includedColumns (childTableNamesH env ctid) childTable.rowAddrs
                  remoteCol siblingCols rowAddr propName card pivotElems B pa helems
                  (pivotSortedIndices
                    ((Option.map (fun t => t.columns) (lookupHTable env.tables tid)).getD [])
                    pivot) 0 state.1 state.2 out.1 out.2 h
                refine ⟨relEvol_of_loopEvol hloop, hBpa,
                  lt_of_lt_of_le hpalt hloop.1, F, ?_, ?_⟩
                · rw [loopEvol_pa hloop hpalt]; exact hpaF
                · intro p hp hptid
                  exact pivBindOK_evol hloop (hpiv p hp hptid)
      | none =>
        simp only [hfp] at h
        by_cases hempty : (jsMatchesH state.2 childTable.rowAddrs remoteCol
            (hGet (rowFields state.2 rowAddr) localCol)).isEmpty = true
        · rw [if_pos hempty] at h
          exact hrefl (Option.some_inj.mp h)
        · rw [if_neg hempty] at h
          cases hbc : buildChildListH fuel recurseH ctid tid dep rel.includedColumns
              (childTableNamesH env ctid)
              (jsMatchesH state.2 childTable.rowAddrs remoteCol
                (hGet (rowFields state.2 rowAddr) localCol)) state.1 state.2 with
          | none => rw [hbc] at h; simp at h
          | some q =>
            obtain ⟨vis1, st1, nested⟩ := q
            rw [hbc] at h
            obtain ⟨hfr1, hnst⟩ := buildChildListH_spec fuel recurseH hN ctid tid dep
              rel.includedColumns (childTableNamesH env ctid) _ state.1 state.2
              vis1 st1 nested hbc
            obtain ⟨hrel, hinv2⟩ := stdAttach_spec fuel env tid B pa state.2 st1 propName
              card nested hinv hfr1 hnst
            have he : (vis1, stdAttach fuel st1 pa propName card nested) = out :=
              Option.some_inj.mp h
            rw [← he]
            exact ⟨hrel, hinv2⟩

/-- The relationship fold preserves the loop relation and the call
invariant across all edges of one `buildNestedH` call. -/
theorem relFoldH_spec (fuel : Nat) (env : HBuildEnv) (recurseH : RecurseHFn)
    (hN : NestSpecH recurseH) (tid : String) (rowAddr : Nat) (pid : Option String)
    (depth : Nat) (pa B : Nat) :
    ∀ (rels : List RelationshipEdge) (state out : Visited × Store),
      rels.foldlM (processRelH fuel env recurseH tid rowAddr pid depth pa) state
        = some out →
      callInv env tid B pa state.2 →
      relEvol B state.2 out.2 ∧ callInv env tid B pa out.2 := by
  intro rels
  induction rels with
  | nil =>
    intro state out hfold hinv
    have heq : state = out := by simpa using hfold
    subst heq
    exact ⟨relEvol_refl B state.2, hinv⟩
  | cons r rest ih =>
    intro state out hfold hinv
    rw [List.foldlM_cons] at hfold
    cases hr : processRelH fuel env recurseH tid rowAddr pid depth pa state r with
    | none => rw [hr] at hfold; simp at hfold
    | some mid =>
      rw [hr] at hfold
      obtain ⟨h1, hinv1⟩ := processRelH_spec fuel env recurseH hN tid rowAddr pid depth
        pa B state mid r hr hinv
      obtain ⟨h2, hinv2⟩ := ih mid out hfold hinv1
      exact ⟨relEvol_trans h1 h2, hinv2⟩

/-- The recursion contract holds for `buildNestedH` itself: a nested
build extends the store, never writes below its entry length, and
returns a fresh object address. -/
theorem buildNestedH_spec (env : HBuildEnv) :
    ∀ (fuel : Nat) (tid : String) (a i : Nat) (pid : Option String) (dep : Nat)
      (vis : Visited) (st : Store) (vis' : Visited) (st' : Store) (addr : Nat),
      buildNestedH env fuel tid a i pid dep vis st = some (vis', st', addr) →
      storeFrame st st' ∧ st.length ≤ addr ∧ addr < st'.length
      ∧ ∃ F, st'.get? addr = some (.objH F) := by
  intro fuel
  induction fuel with
  | zero => intro tid a i pid dep vis st vis' st' addr h; cases h
  | succ fuel ih =>
    intro tid a i pid dep vis st vis' st' addr h
    have hN : NestSpecH (fun ctid a i pid dep vis s =>
        buildNestedH env fuel ctid a i (some pid) dep vis s) := by
      intro ctid a' i' pid' dep' vis0 st0 vis1 st1 addr1 hr
      exact ih ctid a' i' (some pid') dep' vis0 st0 vis1 st1 addr1 hr
    simp only [buildNestedH] at h
    by_cases hvk : vis.contains (tid ++ ":" ++ toString i ++ ":" ++ toString dep) = true
    · rw [if_pos hvk] at h
      obtain ⟨hfr, hle, hlt, F, hF, _⟩ := projectRowH_spec env st tid a
      simp only [Option.some_inj, Prod.mk.injEq] at h
      obtain ⟨_, h2, h3⟩ := h
      subst h2; subst h3
      exact ⟨hfr, hle, hlt, F, hF⟩
    · rw [if_neg hvk] at h
      cases hfold : (env.relationships.filter
          (fun r => r.sourceTableId == tid || r.targetTableId == tid)).foldlM
          (processRelH fuel env
            (fun ctid a i pid dep vis s =>
              buildNestedH env fuel ctid a i (some pid) dep vis s)
            tid a pid dep (projectRowH env st tid a).2)
          ((tid ++ ":" ++ toString i ++ ":" ++ toString dep) :: vis,
            (projectRowH env st tid a).1) with
      | none => rw [hfold] at h; simp at h
      | some res =>
        obtain ⟨rv, rst⟩ := res
        rw [hfold] at h
        simp only [Option.some_inj, Prod.mk.injEq] at h
        obtain ⟨hv1, hst1, haddr1⟩ := h
        obtain ⟨hfr, hle, hlt, F, hF, hpivF⟩ := projectRowH_spec env st tid a
        have hinv0 : callInv env tid st.length (projectRowH env st tid a).2
            (projectRowH env st tid a).1 := ⟨hle, hlt, F, hF, hpivF⟩
        obtain ⟨hrel, hinvF⟩ := relFoldH_spec fuel env _ hN tid a pid dep
          (projectRowH env st tid a).2 st.length _
          ((tid ++ ":" ++ toString i ++ ":" ++ toString dep) :: vis,
            (projectRowH env st tid a).1) (rv, rst) hfold hinv0
        subst hst1
        subst haddr1
        refine ⟨⟨le_trans hfr.1 hrel.1, fun x hx => ?_⟩, hle,
          lt_of_lt_of_le hlt hrel.1, ?_⟩
        · have hx1 : x < (projectRowH env st tid a).1.length := lt_of_lt_of_le hx hfr.1
          rw [relEvol_frame_below hrel x hx hx1]
          exact hfr.2 x hx
        · obtain ⟨_, _, F', hF', _⟩ := hinvF
          exact ⟨F', hF'⟩

/-- C10: `buildJoinedDocument` never mutates its inputs — whatever
the outcome, every heap entry the caller passed in (every table row
object and every value structure reachable from one) is unchanged in
the resulting store: projection copies the row, the transforms build
fresh objects, and every embedded-child assignment targets the fresh
projected object or a fresh pivot element, never an input object. -/
theorem C10_no_input_mutation (fuel : Nat) (leadTableId : String) (leadRowIndex : Nat)
    (tables : List HTable) (relationships : List RelationshipEdge)
    (columnsFilter : List (String × List String)) (columnSplits : List ColumnSplit)
    (tablePivots : List TablePivot) (st : Store) (a : Nat) (ha : a < st.length) :
    (buildJoinedDocumentH fuel leadTableId leadRowIndex tables relationships
      columnsFilter columnSplits tablePivots st).1.get? a = st.get? a := by
  unfold buildJoinedDocumentH
  cases hlk : lookupHTable tables leadTableId with
  | none => simp only [hlk]
  | some leadTable =>
    simp only [hlk]
    cases hrw : leadTable.rowAddrs.get? leadRowIndex with
    | none => simp only [hrw]
    | some rowAddr =>
      simp only [hrw]
      cases hb : buildNestedH ⟨tables, relationships, columnsFilter, columnSplits,
          tablePivots⟩ fuel leadTableId rowAddr leadRowIndex none 0 [] st with
      | none => simp only [hb]
      | some res =>
        obtain ⟨rv, rst, raddr⟩ := res
        simp only [hb]
        obtain ⟨hfr, _, _, _⟩ := buildNestedH_spec ⟨tables, relationships, columnsFilter,
          columnSplits, tablePivots⟩ fuel leadTableId rowAddr leadRowIndex none 0 [] st
          rv rst raddr hb
        exact (storeGet_append_lt rst [HObj.objH [(leadTable.name, HVal.ref raddr)]] a
          (lt_of_lt_of_le ha hfr.1)).trans (hfr.2 a ha)

/-- Witness for C10 at a concrete one-table build: address 0 of the
input store is unchanged by the build. -/
theorem C10_witness :
    (0 : Nat) < 1 ∧ (buildJoinedDocumentH 5 "t" 0 [⟨"t", "T", ["x"], [0]⟩] [] [] [] []
      [HObj.objH [("x", HVal.num 1)]]).1.get? 0
      = [HObj.objH [("x", HVal.num 1)]].get? 0 :=
  ⟨by decide, C10_no_input_mutation 5 "t" 0 [⟨"t", "T", ["x"], [0]⟩] [] [] [] []
    [HObj.objH [("x", HVal.num 1)]] 0 (by decide)⟩
